import Mathlib

/-!
The mail-to-notification pipeline of smtp-gotify.

A shallow embedding of `smtp-gotify.go` (the functions `GotifyBotProcessorFactory`,
`SendEmailToGotify`, `FormatEmail`, `MapAddresses`, `EscapeMultiLine` and
`SanitizeBotToken`) together with the Go standard-library string operations they call,
followed by the properties of the pipeline.

Go strings are byte sequences; they are embedded as lists of byte values.  The HTTP
transport and the next pipeline stage are external: they are embedded as functions of
the history of calls made so far, so that every deterministic behaviour is covered.
-/

namespace SmtpGotify

/-! ## Go strings and the standard-library operations used by the program -/

/-- A Go string or byte slice: its sequence of byte values. -/
abbrev Str := List Nat

/-- The bytes of an ASCII literal of the program text. -/
def ascii (s : String) : Str := s.toList.map Char.toNat

/-- Length of the UTF-8 sequence that the first byte `s0` announces (the size held in
the table `first` of Go's `unicode/utf8`): 1 for an ASCII byte and for a byte that
cannot start a sequence. -/
def runeSize (s0 : Nat) : Nat :=
  if s0 < 0xC2 ∨ 0xF5 ≤ s0 then 1
  else if s0 < 0xE0 then 2
  else if s0 < 0xF0 then 3
  else 4

/-- The second byte `s1` lies in the range accepted after the first byte `s0` (the table
`acceptRanges` of Go's `unicode/utf8`). -/
def secondByteOK (s0 s1 : Nat) : Bool :=
  decide ((if s0 = 0xE0 then 0xA0 else if s0 = 0xF0 then 0x90 else 0x80) ≤ s1) &&
    decide (s1 ≤ (if s0 = 0xED then 0x9F else if s0 = 0xF4 then 0x8F else 0xBF))

/-- A continuation byte, 0x80 to 0xBF. -/
def continuationByte (b : Nat) : Bool := decide (0x80 ≤ b) && decide (b ≤ 0xBF)

/-- Width in bytes of the first UTF-8 sequence of `s`, as `utf8.DecodeRuneInString`
reports it: 0 for the empty string, the announced length when all the bytes of the
sequence are there and in range, and 1 otherwise (ASCII, invalid or truncated). -/
def runeWidth : Str → Nat
  | [] => 0
  | s0 :: rest =>
    let complete : Bool :=
      match runeSize s0, rest with
      | 2, s1 :: _ => secondByteOK s0 s1
      | 3, s1 :: s2 :: _ => secondByteOK s0 s1 && continuationByte s2
      | 4, s1 :: s2 :: s3 :: _ =>
        secondByteOK s0 s1 && continuationByte s2 && continuationByte s3
      | _, _ => false
    if complete then runeSize s0 else 1

/-- Go `strings.Index`: the position of the first occurrence of `substr` in `s`
(`none` where Go returns -1). -/
def Index : Str → Str → Option Nat
  | [], substr => if substr.isPrefixOf [] then some 0 else none
  | c :: t, substr =>
    if substr.isPrefixOf (c :: t) then some 0 else (Index t substr).map (· + 1)

/-- The replacement loop of `strings.Replace` for a non-empty `old` and no limit: the
next occurrence is located with `Index`, the text before it and `new` are written, and
the scan resumes right after the occurrence.  One unit of fuel per iteration. -/
def replaceFrom (old new : Str) : Nat → Str → Str
  | 0, s => s
  | fuel + 1, s =>
    match Index s old with
    | none => s
    | some j => s.take j ++ new ++ replaceFrom old new fuel (s.drop (j + old.length))

/-- The replacement loop of `strings.Replace` for an empty `old`, after the match at the
beginning of the string: `new` is written after each UTF-8 sequence. -/
def replaceRunes (new : Str) : Nat → Str → Str
  | 0, s => s
  | fuel + 1, s =>
    if s = [] then []
    else s.take (runeWidth s) ++ new ++ replaceRunes new fuel (s.drop (runeWidth s))

/-- Go `strings.Replace(s, old, new, -1)`: every non-overlapping instance of `old`
replaced by `new`; an empty `old` matches at the beginning of the string and after each
UTF-8 sequence.  Each iteration consumes at least one byte, so `s.length` iterations
are enough. -/
def ReplaceAll (s old new : Str) : Str :=
  if old = [] then new ++ replaceRunes new s.length s
  else replaceFrom old new s.length s

/-- The loop of `strings.Split` (`genSplit`) for a non-empty separator. -/
def splitFrom (sep : Str) : Nat → Str → List Str
  | 0, s => [s]
  | fuel + 1, s =>
    match Index s sep with
    | none => [s]
    | some m => s.take m :: splitFrom sep fuel (s.drop (m + sep.length))

/-- Go `strings.Split(s, sep)` for a non-empty separator `sep` (the program only splits
on ","; the rune explosion Go performs for an empty separator is not embedded). -/
def Split (s sep : Str) : List Str := splitFrom sep s.length s

/-- Go `strings.Join(elems, sep)`. -/
def Join : List Str → Str → Str
  | [], _ => []
  | [a], _ => a
  | a :: b :: rest, sep => a ++ sep ++ Join (b :: rest) sep

/-- Decimal digits of a natural number, most significant first, in front of `acc`. -/
def decimalDigits : Nat → Nat → Str → Str
  | 0, _, acc => acc
  | fuel + 1, n, acc =>
    if n < 10 then (48 + n) :: acc
    else decimalDigits fuel (n / 10) ((48 + n % 10) :: acc)

/-- The `%d` verb of `fmt.Sprintf` applied to a Go `int`. -/
def formatInt (i : Int) : Str :=
  if i < 0 then 45 :: decimalDigits (i.natAbs + 1) i.natAbs []
  else decimalDigits (i.natAbs + 1) i.natAbs []

/-- The lookup of Go's generic `strings.Replacer`: among the pairs whose old string is a
prefix of `s`, the one given first in argument order. -/
def replacerLookup (oldnew : List (Str × Str)) (s : Str) : Option (Str × Str) :=
  oldnew.find? (fun p => p.1.isPrefixOf s)

/-- The scan of Go's generic `strings.Replacer` for non-empty old strings: at each
position the pair found by the lookup is applied and the scan resumes after the matched
old string; a byte where nothing matches is copied. -/
def replacerFrom (oldnew : List (Str × Str)) : Nat → Str → Str
  | 0, s => s
  | fuel + 1, s =>
    match replacerLookup oldnew s with
    | some p => p.2 ++ replacerFrom oldnew fuel (s.drop p.1.length)
    | none =>
      match s with
      | [] => []
      | c :: t => c :: replacerFrom oldnew fuel t

/-- Go `strings.NewReplacer(oldnew...).Replace(s)` for non-empty old strings. -/
def ReplacerReplace (oldnew : List (Str × Str)) (s : Str) : Str :=
  replacerFrom oldnew s.length s

/-! ## The external collaborators -/

/-- Go `mail.Address` of the mail server, observed through its `String()` form only. -/
structure Address where
  /-- The value of `String()`. -/
  text : Str
deriving DecidableEq

/-- The value of `Address.String()`. -/
def Address.String (a : Address) : Str := a.text

/-- The `enmime.Envelope` the MIME parser returns: the decoded plain-text part and the
header lookup. -/
structure MimeEnvelope where
  /-- The field `Text`. -/
  Text : Str
  /-- The method `GetHeader(name)`. -/
  GetHeader : Str → Str

/-- The `mail.Envelope` handed to the stage, with what the external libraries return for
it. -/
structure Envelope where
  /-- The field `MailFrom`. -/
  MailFrom : Address
  /-- The field `RcptTo`. -/
  RcptTo : List Address
  /-- The value of `e.Data.String()`. -/
  Data : Str
  /-- The value of `e.String()`, which the `%s` verb prints. -/
  text : Str
  /-- The outcome of `enmime.ReadEnvelope(e.NewReader())`: the parsed message, or the
  text of the parse error. -/
  parsed : Except Str MimeEnvelope

/-- The struct `GofityConfig`. -/
structure GofityConfig where
  gotifyPriority : Str
  gotifyAPIToken : Str
  gotifyURL : Str
  titleTemplate : Str
  messageTemplate : Str

/-- One `http.PostForm` call: the URL and the three form fields. -/
structure Request where
  url : Str
  title : Str
  message : Str
  priority : Str
deriving DecidableEq

/-- What `http.PostForm` returns: a transport error with its text, or a response with
its status code and the body `ioutil.ReadAll` reads from it. -/
inductive PostResult where
  | error (text : Str)
  | response (status : Int) (body : Str)
deriving DecidableEq

/-- The type `backends.SelectTask`, a Go `int`. -/
abbrev SelectTask := Int

/-- The constant `backends.TaskSaveMail`. -/
def TaskSaveMail : SelectTask := 0

/-- The `backends.Result` built by `backends.NewResult` from one string: the SMTP
response line, whose first three characters are the status code. -/
structure Result where
  line : Str
deriving DecidableEq

/-- A call the program makes to an external collaborator. -/
inductive Call where
  | post (req : Request)
  | process (e : Envelope) (task : SelectTask)

/-- The external collaborators of one stage: the HTTP transport and the next stage of
the pipeline.  What each returns may depend on every call made before. -/
structure World where
  /-- The behaviour of `http.PostForm`. -/
  PostForm : List Call → Request → PostResult
  /-- The behaviour of `p.Process` of the next stage: its result and its error. -/
  Process : List Call → Envelope → SelectTask → Result × Option Str

/-! ## The program -/

/-- The function `SanitizeBotToken`. -/
def SanitizeBotToken (s botToken : Str) : Str :=
  ReplaceAll s botToken (ascii "***")

/-- The function `EscapeMultiLine`. -/
def EscapeMultiLine (b : Str) : Str :=
  let s := b
  let s := ReplaceAll s (ascii "\r") (ascii "\\r")
  let s := ReplaceAll s (ascii "\n") (ascii "\\n")
  s

/-- The function `MapAddresses`. -/
def MapAddresses (a : List Address) : Str :=
  Join (a.map Address.String) (ascii ", ")

/-- The replacer `r` that `FormatEmail` builds once the message is parsed. -/
def formatReplacer (e : Envelope) (env : MimeEnvelope) : List (Str × Str) :=
  let text := env.Text
  let text := if text = [] then e.Data else text
  [ (ascii "\\n", ascii "\n"),
    (ascii "{from}", e.MailFrom.String),
    (ascii "{to}", MapAddresses e.RcptTo),
    (ascii "{subject}", env.GetHeader (ascii "subject")),
    (ascii "{body}", text) ]

/-- The function `FormatEmail`. -/
def FormatEmail (e : Envelope) (titleTemplate messageTemplate : Str) : Str × Str :=
  match e.parsed with
  | .error err =>
    (ascii "smtp-gotify: Could not parse email",
     e.text ++ ascii "\n\nError occurred during email parsing: " ++ err)
  | .ok env =>
    let r := formatReplacer e env
    (ReplacerReplace r titleTemplate, ReplacerReplace r messageTemplate)

/-- The request `SendEmailToGotify` posts for one token. -/
def postRequest (gotifyConfig : GofityConfig) (title message appToken : Str) : Request :=
  { url := gotifyConfig.gotifyURL ++ ascii "message?token=" ++ appToken
    title := title
    message := message
    priority := gotifyConfig.gotifyPriority }

/-- The loop of `SendEmailToGotify` over the tokens still to be tried; `h` is the history
of calls made so far.  Returns the error (`none` for `nil`) and the history with
the calls of the loop appended. -/
def sendLoop (w : World) (gotifyConfig : GofityConfig) (title message : Str) :
    List Str → List Call → Option Str × List Call
  | [], h => (none, h)
  | appToken :: rest, h =>
    let req := postRequest gotifyConfig title message appToken
    match w.PostForm h req with
    | .error err => (some (SanitizeBotToken err appToken), h ++ [Call.post req])
    | .response status body =>
      if status ≠ 200 then
        (some (ascii "Non-200 response from Gotify Server: (" ++ formatInt status ++
            ascii ") " ++ SanitizeBotToken (EscapeMultiLine body) appToken),
          h ++ [Call.post req])
      else sendLoop w gotifyConfig title message rest (h ++ [Call.post req])

/-- The function `SendEmailToGotify`. -/
def SendEmailToGotify (w : World) (h : List Call) (e : Envelope)
    (gotifyConfig : GofityConfig) : Option Str × List Call :=
  let tm := FormatEmail e gotifyConfig.titleTemplate gotifyConfig.messageTemplate
  sendLoop w gotifyConfig tm.1 tm.2 (Split gotifyConfig.gotifyAPIToken (ascii ",")) h

/-- The processor that `GotifyBotProcessorFactory(gotifyConfig)` wraps around the next
stage: its result, its error, and the history with its calls appended. -/
def GotifyBotProcessorFactory (gotifyConfig : GofityConfig) (w : World) (h : List Call)
    (e : Envelope) (task : SelectTask) : (Result × Option Str) × List Call :=
  if task = TaskSaveMail then
    match SendEmailToGotify w h e gotifyConfig with
    | (some err, h1) => ((Result.mk (ascii "554 Error: " ++ err), some err), h1)
    | (none, h1) => (w.Process h1 e task, h1 ++ [Call.process e task])
  else (w.Process h e task, h ++ [Call.process e task])

/-! ## Notions used to state the properties -/

/-- The pieces of a text cut at the successive left-to-right, non-overlapping
occurrences of `tok`: no occurrence of `tok` starts inside a piece that is followed by
one (so each cut is at the leftmost occurrence after the previous cut), and the last
piece contains none. -/
def LeftmostCut (tok : Str) : List Str → Prop
  | [] => False
  | [p] => ¬ tok <:+: p
  | p :: q :: rest => ¬ tok <:+: p ++ tok.dropLast ∧ LeftmostCut tok (q :: rest)

/-- Whether a list of pieces is the leftmost cut can be computed. -/
def LeftmostCut.decide (tok : Str) : (pieces : List Str) → Decidable (LeftmostCut tok pieces)
  | [] => isFalse (fun h => h)
  | [p] => inferInstanceAs (Decidable (¬ tok <:+: p))
  | p :: q :: rest =>
    @instDecidableAnd _ _ (inferInstanceAs (Decidable (¬ tok <:+: p ++ tok.dropLast)))
      (LeftmostCut.decide tok (q :: rest))

instance (tok : Str) (pieces : List Str) : Decidable (LeftmostCut tok pieces) :=
  LeftmostCut.decide tok pieces

/-- A POST answered with status 200: the loop of `SendEmailToGotify` goes on to the next
token. -/
def accepted : PostResult → Bool
  | .error _ => false
  | .response status _ => status == 200

/-- The calls recorded for a sequence of POSTs. -/
def posts (reqs : List Request) : List Call := reqs.map Call.post

/-- Every request of the list, posted in this order after the history `h`, is answered
with status 200. -/
def AllAccepted (w : World) : List Call → List Request → Prop
  | _, [] => True
  | h, r :: rs => accepted (w.PostForm h r) = true ∧ AllAccepted w (h ++ [Call.post r]) rs

/-- Whether every request is answered with status 200 can be computed. -/
def AllAccepted.decide (w : World) :
    (h : List Call) → (reqs : List Request) → Decidable (AllAccepted w h reqs)
  | _, [] => isTrue trivial
  | h, r :: rs =>
    @instDecidableAnd _ _ (inferInstanceAs (Decidable (accepted (w.PostForm h r) = true)))
      (AllAccepted.decide w (h ++ [Call.post r]) rs)

instance (w : World) (h : List Call) (reqs : List Request) :
    Decidable (AllAccepted w h reqs) :=
  AllAccepted.decide w h reqs

/-- The error text built from a destination token and the failing answer to its POST:
the sanitised transport error, or the line for a response that is not 200. -/
def failureText (appToken : Str) : PostResult → Str
  | .error err => SanitizeBotToken err appToken
  | .response status body =>
    ascii "Non-200 response from Gotify Server: (" ++ formatInt status ++ ascii ") " ++
      SanitizeBotToken (EscapeMultiLine body) appToken

/-- The requests `SendEmailToGotify` has to post for an envelope: one per comma-split
token, in the configured order, each carrying the rendered title and message. -/
def requestsFor (e : Envelope) (gotifyConfig : GofityConfig) : List Str → List Request :=
  List.map (postRequest gotifyConfig
    (FormatEmail e gotifyConfig.titleTemplate gotifyConfig.messageTemplate).1
    (FormatEmail e gotifyConfig.titleTemplate gotifyConfig.messageTemplate).2)

/-! ## Sample inputs -/

/-- What the MIME parser returns for a message with the given subject and plain-text
body. -/
def sampleMime (subject body : Str) : MimeEnvelope :=
  { Text := body
    GetHeader := fun name => if name = ascii "subject" then subject else [] }

/-- A message with the given subject and body, which the MIME parser accepts. -/
def sampleMessage (subject body : Str) : Envelope :=
  { MailFrom := ⟨ascii "<a@x>"⟩
    RcptTo := [⟨ascii "<b@y>"⟩, ⟨ascii "<c@z>"⟩]
    Data := ascii "Subject: " ++ subject ++ ascii "\r\n\r\n" ++ body
    text := ascii "Subject: " ++ subject ++ ascii "\r\n\r\n" ++ body
    parsed := .ok (sampleMime subject body) }

/-- A parsed message with subject `Hi` and body `There`. -/
def sampleEnvelope : Envelope := sampleMessage (ascii "Hi") (ascii "There")

/-- A message the MIME parser refuses. -/
def brokenEnvelope : Envelope :=
  { MailFrom := ⟨ascii "<a@x>"⟩
    RcptTo := [⟨ascii "<b@y>"⟩]
    Data := ascii "garbage"
    text := ascii "garbage"
    parsed := .error (ascii "malformed MIME header") }

/-- A configuration with the default templates and the given token list. -/
def sampleConfig (tokens : Str) : GofityConfig :=
  { gotifyPriority := ascii "5"
    gotifyAPIToken := tokens
    gotifyURL := ascii "http://g/"
    titleTemplate := ascii "{subject}"
    messageTemplate := ascii "{body}" }

/-- A world whose transport gives the answer `r` to the POST number `k` (counted from 0
in the history) and answers every other POST with status 200, and whose next stage
accepts the message. -/
def sampleWorld (k : Nat) (r : PostResult) : World :=
  { PostForm := fun h _ => if h.length = k then r else .response 200 []
    Process := fun _ _ _ => (⟨ascii "250 OK"⟩, none) }

/-- The number a string of decimal digits writes. -/
def decimalValue (s : Str) : Nat := s.foldl (fun v d => 10 * v + (d - 48)) 0

/-! # Properties -/

/-! ## The replacement scan of `strings.Replace` -/

theorem Index_at_match {s old : Str} (h : old <+: s) : Index s old = some 0 := by
  cases s with
  | nil =>
    have : old = [] := List.prefix_nil.mp h
    subst this; simp [Index]
  | cons c t =>
    have : old.isPrefixOf (c :: t) = true := List.isPrefixOf_iff_prefix.mpr h
    simp [Index, this]

theorem Index_cons_of_no_match {c : Nat} {t old : Str} (h : ¬ old <+: c :: t) :
    Index (c :: t) old = (Index t old).map (· + 1) := by
  have : old.isPrefixOf (c :: t) = false := by
    rw [← Bool.not_eq_true, List.isPrefixOf_iff_prefix]; exact h
  simp [Index, this]

theorem Index_nil {old : Str} (h : old ≠ []) : Index [] old = none := by
  cases old with
  | nil => exact absurd rfl h
  | cons a l => simp [Index, List.isPrefixOf]

theorem replaceFrom_nil {old : Str} (h : old ≠ []) (new : Str) (fuel : Nat) :
    replaceFrom old new fuel [] = [] := by
  cases fuel <;> simp [replaceFrom, Index_nil h]

theorem replaceFrom_cons (old new : Str) (fuel : Nat) {c : Nat} {t : Str}
    (h : ¬ old <+: c :: t) :
    replaceFrom old new fuel (c :: t) = c :: replaceFrom old new fuel t := by
  cases fuel with
  | zero => simp [replaceFrom]
  | succ n =>
    simp only [replaceFrom, Index_cons_of_no_match h]
    cases hI : Index t old with
    | none => simp
    | some j => simp [Nat.add_right_comm]

theorem replaceFrom_at_match (old new : Str) (fuel : Nat) {s : Str} (h : old <+: s) :
    replaceFrom old new (fuel + 1) s = new ++ replaceFrom old new fuel (s.drop old.length) := by
  simp [replaceFrom, Index_at_match h]

theorem prefix_length_pos {old s : Str} (hold : old ≠ []) (h : old <+: s) :
    (s.drop old.length).length < s.length := by
  have h1 := h.length_le
  have h2 : 0 < old.length := List.length_pos.mpr hold
  simp only [List.length_drop]; omega

theorem replaceFrom_fuel_aux {old : Str} (hold : old ≠ []) (new : Str) :
    ∀ (k : Nat) (s : Str) (f1 f2 : Nat), s.length ≤ k → s.length ≤ f1 → s.length ≤ f2 →
      replaceFrom old new f1 s = replaceFrom old new f2 s := by
  intro k
  induction k with
  | zero =>
    intro s f1 f2 hk _ _
    have : s = [] := List.length_eq_zero.mp (Nat.le_zero.mp hk)
    subst this
    simp [replaceFrom_nil hold]
  | succ k ih =>
    intro s f1 f2 hk h1 h2
    cases s with
    | nil => simp [replaceFrom_nil hold]
    | cons c t =>
      simp only [List.length_cons] at hk h1 h2
      by_cases hp : old <+: c :: t
      · obtain ⟨n, rfl⟩ : ∃ n, f1 = n + 1 := ⟨f1 - 1, by omega⟩
        obtain ⟨m, rfl⟩ : ∃ m, f2 = m + 1 := ⟨f2 - 1, by omega⟩
        rw [replaceFrom_at_match old new n hp, replaceFrom_at_match old new m hp]
        have := prefix_length_pos hold hp
        simp only [List.length_cons] at this
        rw [ih _ n m (by omega) (by omega) (by omega)]
      · rw [replaceFrom_cons old new _ hp, replaceFrom_cons old new _ hp]
        rw [ih t f1 f2 (by omega) (by omega) (by omega)]

/-- Fuel beyond the length of the text does not change what the replacement loop
returns: the loop always runs to the end of the text. -/
theorem replaceFrom_fuel {old : Str} (hold : old ≠ []) (new : Str) (s : Str) (f1 f2 : Nat)
    (h1 : s.length ≤ f1) (h2 : s.length ≤ f2) :
    replaceFrom old new f1 s = replaceFrom old new f2 s :=
  replaceFrom_fuel_aux hold new s.length s f1 f2 (Nat.le_refl _) h1 h2

theorem ReplaceAll_nil {old : Str} (hold : old ≠ []) (new : Str) :
    ReplaceAll [] old new = [] := by
  simp [ReplaceAll, hold, replaceFrom]

theorem ReplaceAll_at_match {old : Str} (hold : old ≠ []) (new : Str) {s : Str}
    (h : old <+: s) :
    ReplaceAll s old new = new ++ ReplaceAll (s.drop old.length) old new := by
  have hlt := prefix_length_pos hold h
  simp only [ReplaceAll, hold, if_false]
  obtain ⟨n, hn⟩ : ∃ n, s.length = n + 1 := ⟨s.length - 1, by omega⟩
  rw [hn, replaceFrom_at_match old new n h]
  rw [replaceFrom_fuel hold new _ n _ (by omega) (Nat.le_refl _)]

theorem ReplaceAll_cons {old : Str} (hold : old ≠ []) (new : Str) {c : Nat} {t : Str}
    (h : ¬ old <+: c :: t) :
    ReplaceAll (c :: t) old new = c :: ReplaceAll t old new := by
  simp only [ReplaceAll, hold, if_false]
  rw [replaceFrom_cons old new _ h]
  rw [replaceFrom_fuel hold new t _ t.length (by simp) (Nat.le_refl _)]

/-- Induction along the scan of `ReplaceAll` for a non-empty `old`. -/
theorem replace_induction {old : Str} (hold : old ≠ []) {P : Str → Prop}
    (hnil : P [])
    (hpre : ∀ s, old <+: s → P (s.drop old.length) → P s)
    (hcons : ∀ c t, ¬ old <+: c :: t → P t → P (c :: t)) :
    ∀ s, P s := by
  have key : ∀ (n : Nat) (s : Str), s.length ≤ n → P s := by
    intro n
    induction n with
    | zero =>
      intro s hs
      have : s = [] := List.length_eq_zero.mp (Nat.le_zero.mp hs)
      subst this; exact hnil
    | succ n ih =>
      intro s hs
      cases s with
      | nil => exact hnil
      | cons c t =>
        simp only [List.length_cons] at hs
        by_cases hp : old <+: c :: t
        · have := prefix_length_pos hold hp
          simp only [List.length_cons] at this
          exact hpre _ hp (ih _ (by omega))
        · exact hcons c t hp (ih t (by omega))
  intro s
  exact key s.length s (Nat.le_refl _)

/-! ## Occurrences of a text inside a concatenation -/

theorem not_prefix_cons_of_not_mem {old : Str} {x : Nat} (rest : Str) (hold : old ≠ [])
    (hx : x ∉ old) : ¬ old <+: x :: rest := by
  intro h
  rcases List.prefix_cons_iff.mp h with h0 | ⟨t, ht, _⟩
  · exact hold h0
  · exact hx (by rw [ht]; exact List.mem_cons_self _ _)

theorem infix_of_infix_append_disjoint {old : Str} (hold : old ≠ []) :
    ∀ (n J : Str), (∀ x ∈ n, x ∉ old) → old <:+: n ++ J → old <:+: J := by
  intro n
  induction n with
  | nil => intro J _ h; simpa using h
  | cons y n ih =>
    intro J hn h
    rw [List.cons_append, List.infix_cons_iff] at h
    rcases h with h | h
    · exact absurd h (not_prefix_cons_of_not_mem _ hold (hn y (List.mem_cons_self _ _)))
    · exact ih J (fun x hx => hn x (List.mem_cons_of_mem _ hx)) h

theorem infix_append_cons_split {old : Str} {x : Nat} (hold : old ≠ []) (hx : x ∉ old) :
    ∀ (A B : Str), old <:+: A ++ x :: B → old <:+: A ∨ old <:+: B := by
  intro A
  induction A with
  | nil =>
    intro B h
    rw [List.nil_append, List.infix_cons_iff] at h
    rcases h with h | h
    · exact absurd h (not_prefix_cons_of_not_mem _ hold hx)
    · exact Or.inr h
  | cons a A ih =>
    intro B h
    rw [List.cons_append, List.infix_cons_iff] at h
    rcases h with h | h
    · by_cases hlen : old.length ≤ (a :: A).length
      · left
        have hA : (a :: A) <+: a :: (A ++ x :: B) := by
          rw [← List.cons_append]; exact List.prefix_append _ _
        exact (List.prefix_of_prefix_length_le h hA hlen).isInfix
      · exfalso
        have hAx : (a :: A) ++ [x] <+: a :: (A ++ x :: B) := by
          refine ⟨B, ?_⟩; simp
        have hle : ((a :: A) ++ [x]).length ≤ old.length := by
          simp only [List.length_append, List.length_cons, List.length_nil] at hlen ⊢
          omega
        have := List.prefix_of_prefix_length_le hAx h hle
        exact hx (this.subset (by simp))
    · rcases ih B h with h | h
      · exact Or.inl (List.infix_cons h)
      · exact Or.inr h

/-! ## The cut of a text at the occurrences of a token -/

theorem not_infix_dropLast {tok : Str} (h : tok ≠ []) : ¬ tok <:+: tok.dropLast := by
  intro hi
  have h1 := hi.length_le
  have h2 : 0 < tok.length := List.length_pos.mpr h
  simp only [List.length_dropLast] at h1
  omega

theorem Join_cons_cons (a b : Str) (rest : List Str) (sep : Str) :
    Join (a :: b :: rest) sep = a ++ sep ++ Join (b :: rest) sep := rfl

theorem Join_cons_head (c : Nat) (p : Str) (ps : List Str) (sep : Str) :
    Join ((c :: p) :: ps) sep = c :: Join (p :: ps) sep := by
  cases ps with
  | nil => rfl
  | cons q rest => simp [Join]

theorem Join_nil_cons {ps : List Str} (h : ps ≠ []) (sep : Str) :
    Join ([] :: ps) sep = sep ++ Join ps sep := by
  cases ps with
  | nil => exact absurd rfl h
  | cons q rest => simp [Join]

theorem LeftmostCut_ne_nil {tok : Str} {ps : List Str} (h : LeftmostCut tok ps) : ps ≠ [] := by
  cases ps with
  | nil => exact absurd h (by simp [LeftmostCut])
  | cons p rest => simp

/-- The replacement of a non-empty token: the text is cut at the successive
left-to-right non-overlapping occurrences of the token, and the pieces are joined
again with the replacement in place of the token. -/
theorem ReplaceAll_cut {old : Str} (hold : old ≠ []) (new : Str) :
    ∀ s : Str, ∃ pieces : List Str, LeftmostCut old pieces ∧ Join pieces old = s ∧
      Join pieces new = ReplaceAll s old new := by
  refine replace_induction hold (P := fun s => ∃ pieces : List Str,
    LeftmostCut old pieces ∧ Join pieces old = s ∧ Join pieces new = ReplaceAll s old new)
    ?_ ?_ ?_
  · exact ⟨[[]], by simpa [LeftmostCut] using hold, rfl, by rw [ReplaceAll_nil hold]; rfl⟩
  · intro s hp ⟨ps, hcut, hjoin, hrep⟩
    have hne := LeftmostCut_ne_nil hcut
    refine ⟨[] :: ps, ?_, ?_, ?_⟩
    · cases ps with
      | nil => exact absurd rfl hne
      | cons q rest =>
        exact ⟨by simpa using not_infix_dropLast hold, hcut⟩
    · rw [Join_nil_cons hne, hjoin]
      exact List.prefix_iff_eq_append.mp hp
    · rw [Join_nil_cons hne, hrep, ReplaceAll_at_match hold new hp]
  · intro c t hp ⟨ps, hcut, hjoin, hrep⟩
    cases ps with
    | nil => exact absurd hcut (by simp [LeftmostCut])
    | cons p rest =>
      refine ⟨(c :: p) :: rest, ?_, ?_, ?_⟩
      · cases rest with
        | nil =>
          simp only [LeftmostCut] at hcut ⊢
          simp only [Join] at hjoin
          subst hjoin
          rw [List.infix_cons_iff]
          rintro (h | h)
          · exact hp h
          · exact hcut h
        | cons q rest =>
          simp only [LeftmostCut] at hcut ⊢
          refine ⟨?_, hcut.2⟩
          rw [List.cons_append, List.infix_cons_iff]
          rintro (h | h)
          · apply hp
            refine h.trans ?_
            rw [← hjoin, Join_cons_cons, List.append_assoc]
            rw [List.cons_prefix_cons]
            refine ⟨rfl, ?_⟩
            rw [List.prefix_append_right_inj]
            exact (List.dropLast_prefix old).trans (List.prefix_append _ _)
          · exact hcut.1 h
      · rw [Join_cons_head, hjoin]
      · rw [Join_cons_head, hrep, ReplaceAll_cons hold new hp]

/-- Joining the pieces of a leftmost cut with a non-empty replacement that shares no
byte with the token leaves no occurrence of the token. -/
theorem not_infix_Join_of_cut {tok new : Str} (htok : tok ≠ []) (hnew : new ≠ [])
    (hdisj : ∀ x ∈ new, x ∉ tok) :
    ∀ pieces : List Str, LeftmostCut tok pieces → ¬ tok <:+: Join pieces new := by
  intro pieces
  induction pieces with
  | nil => intro h; exact absurd h (by simp [LeftmostCut])
  | cons p rest ih =>
    cases rest with
    | nil => intro h; simpa [LeftmostCut, Join] using h
    | cons q rest =>
      intro hcut hocc
      simp only [LeftmostCut] at hcut
      rw [Join_cons_cons, List.append_assoc] at hocc
      cases new with
      | nil => exact hnew rfl
      | cons x new' =>
        rw [List.cons_append] at hocc
        rcases infix_append_cons_split htok (hdisj x (List.mem_cons_self _ _)) _ _ hocc
          with h | h
        · exact hcut.1 (h.trans ⟨[], tok.dropLast, by simp⟩)
        · exact ih hcut.2
            (infix_of_infix_append_disjoint htok new' _
              (fun y hy => hdisj y (List.mem_cons_of_mem _ hy)) h)

/-! ## Replacing a single byte, and the bytes of a replaced text -/

theorem singleton_prefix_cons (c x : Nat) (t : Str) : [c] <+: x :: t ↔ c = x := by
  simp [List.cons_prefix_cons]

/-- Replacing the one-byte text `[c]` rewrites every byte equal to `c` and keeps the
others in order. -/
theorem ReplaceAll_single (c : Nat) (new : Str) :
    ∀ s : Str, ReplaceAll s [c] new = s.flatMap (fun x => if x = c then new else [x]) := by
  have hne : ([c] : Str) ≠ [] := by simp
  intro s
  induction s with
  | nil => rw [ReplaceAll_nil hne]; rfl
  | cons x t ih =>
    by_cases hx : x = c
    · have hp : [c] <+: x :: t := (singleton_prefix_cons c x t).mpr hx.symm
      rw [ReplaceAll_at_match hne new hp]
      simp [ih, hx]
    · have hp : ¬ [c] <+: x :: t := fun h => hx ((singleton_prefix_cons c x t).mp h).symm
      rw [ReplaceAll_cons hne new hp]
      simp [ih, hx]

theorem mem_replaceRunes (new : Str) :
    ∀ (fuel : Nat) (s : Str) (x : Nat), x ∈ replaceRunes new fuel s → x ∈ s ∨ x ∈ new := by
  intro fuel
  induction fuel with
  | zero => intro s x h; exact Or.inl (by simpa [replaceRunes] using h)
  | succ n ih =>
    intro s x h
    by_cases hs : s = []
    · simp [replaceRunes, hs] at h
    · simp only [replaceRunes, hs, if_false, List.mem_append] at h
      rcases h with (h | h) | h
      · exact Or.inl (List.mem_of_mem_take h)
      · exact Or.inr h
      · rcases ih _ x h with h | h
        · exact Or.inl (List.mem_of_mem_drop h)
        · exact Or.inr h

/-- Every byte of a replaced text comes from the text or from the replacement. -/
theorem mem_ReplaceAll (s old new : Str) (x : Nat) (h : x ∈ ReplaceAll s old new) :
    x ∈ s ∨ x ∈ new := by
  by_cases hold : old = []
  · simp only [ReplaceAll, hold, if_true, List.mem_append] at h
    rcases h with h | h
    · exact Or.inr h
    · exact mem_replaceRunes new _ s x h
  · revert h
    refine replace_induction hold
      (P := fun s => x ∈ ReplaceAll s old new → x ∈ s ∨ x ∈ new) ?_ ?_ ?_ s
    · intro h; rw [ReplaceAll_nil hold] at h; exact Or.inl h
    · intro s hp ih h
      rw [ReplaceAll_at_match hold new hp, List.mem_append] at h
      rcases h with h | h
      · exact Or.inr h
      · rcases ih h with h | h
        · exact Or.inl (List.mem_of_mem_drop h)
        · exact Or.inr h
    · intro c t hp ih h
      rw [ReplaceAll_cons hold new hp, List.mem_cons] at h
      rcases h with h | h
      · exact Or.inl (by rw [h]; exact List.mem_cons_self _ _)
      · rcases ih h with h | h
        · exact Or.inl (List.mem_cons_of_mem _ h)
        · exact Or.inr h

theorem ascii_stars : ascii "***" = [42, 42, 42] := by decide

/-- The sanitised text holds no occurrence of a non-empty token without `*`. -/
theorem not_infix_SanitizeBotToken (s tok : Str) (htok : tok ≠ []) (hstar : 42 ∉ tok) :
    ¬ tok <:+: SanitizeBotToken s tok := by
  obtain ⟨pieces, hcut, _, hrep⟩ := ReplaceAll_cut htok (ascii "***") s
  unfold SanitizeBotToken
  rw [← hrep]
  refine not_infix_Join_of_cut htok (by rw [ascii_stars]; simp) ?_ pieces hcut
  intro x hx
  rw [ascii_stars] at hx
  simp only [List.mem_cons, List.mem_singleton, List.not_mem_nil, or_false, or_self] at hx
  rw [hx]; exact hstar

theorem EscapeMultiLine_eq_flatMap (b : Str) :
    EscapeMultiLine b =
      b.flatMap (fun c => if c = 13 then ascii "\\r" else if c = 10 then ascii "\\n" else [c]) := by
  have h1 : ascii "\r" = [13] := by decide
  have h2 : ascii "\n" = [10] := by decide
  have h3 : ascii "\\r" = [92, 114] := by decide
  have h4 : ascii "\\n" = [92, 110] := by decide
  simp only [EscapeMultiLine, h1, h2, ReplaceAll_single, List.flatMap_assoc]
  apply List.flatMap_congr
  intro x _
  by_cases hx : x = 13
  · simp [hx, h3]
  · simp [hx, h3, h4]

theorem not_mem_EscapeMultiLine (b : Str) : 13 ∉ EscapeMultiLine b ∧ 10 ∉ EscapeMultiLine b := by
  have h3 : ascii "\\r" = [92, 114] := by decide
  have h4 : ascii "\\n" = [92, 110] := by decide
  rw [EscapeMultiLine_eq_flatMap, h3, h4]
  constructor
  · intro h
    obtain ⟨a, _, ha⟩ := List.mem_flatMap.mp h
    by_cases h13 : a = 13
    · simp [h13] at ha
    · by_cases h10 : a = 10
      · simp [h10] at ha
      · simp only [h13, h10, if_false, List.mem_singleton] at ha
        exact h13 ha.symm
  · intro h
    obtain ⟨a, _, ha⟩ := List.mem_flatMap.mp h
    by_cases h13 : a = 13
    · simp [h13] at ha
    · by_cases h10 : a = 10
      · simp [h10] at ha
      · simp only [h13, h10, if_false, List.mem_singleton] at ha
        exact h10 ha.symm

/-! ## The token sanitizer -/

/-- C3, as amended: for every text and every non-empty token, `SanitizeBotToken` cuts the
text at the successive left-to-right non-overlapping occurrences of the token and joins
the pieces with the placeholder `***` (at least one cut is made when the token occurs
in the text); and when the token holds no `*`, the result contains no occurrence of
the token. -/
theorem SanitizeBotToken_replaces_occurrences (text tok : Str) (htok : tok ≠ []) :
    (∃ pieces : List Str, LeftmostCut tok pieces ∧ Join pieces tok = text ∧
        SanitizeBotToken text tok = Join pieces (ascii "***") ∧
        (tok <:+: text → 2 ≤ pieces.length)) ∧
      (42 ∉ tok → ¬ tok <:+: SanitizeBotToken text tok) := by
  refine ⟨?_, not_infix_SanitizeBotToken text tok htok⟩
  obtain ⟨pieces, hcut, hjoin, hrep⟩ := ReplaceAll_cut htok (ascii "***") text
  refine ⟨pieces, hcut, hjoin, hrep.symm, ?_⟩
  intro hocc
  match pieces, hcut, hjoin with
  | [], hcut, _ => exact absurd hcut (by simp [LeftmostCut])
  | [p], hcut, hjoin =>
    simp only [LeftmostCut] at hcut
    simp only [Join] at hjoin
    exact absurd (hjoin ▸ hocc) hcut
  | _ :: _ :: _, _, _ => simp

/-- The token `secret` in the text `a secret b`: one cut, and the token is gone. -/
theorem SanitizeBotToken_replaces_occurrences_witness :
    ascii "secret" ≠ [] ∧
    ((∃ pieces : List Str, LeftmostCut (ascii "secret") pieces ∧
        Join pieces (ascii "secret") = ascii "a secret b" ∧
        SanitizeBotToken (ascii "a secret b") (ascii "secret") = Join pieces (ascii "***") ∧
        (ascii "secret" <:+: ascii "a secret b" → 2 ≤ pieces.length)) ∧
      (42 ∉ ascii "secret" → ¬ ascii "secret" <:+:
        SanitizeBotToken (ascii "a secret b") (ascii "secret"))) :=
  ⟨by decide, SanitizeBotToken_replaces_occurrences (ascii "a secret b") (ascii "secret")
    (by decide)⟩

/-- C3 fails as stated: the token `*` occurs in the text `*`, and the sanitised text
`***` still contains it; the empty token occurs in the text `a`, and it occurs in the
sanitised text `***a***` as well. -/
theorem SanitizeBotToken_token_survives :
    (ascii "*" <:+: ascii "*" ∧
        SanitizeBotToken (ascii "*") (ascii "*") = ascii "***" ∧
        ascii "*" <:+: SanitizeBotToken (ascii "*") (ascii "*")) ∧
      (ascii "" <:+: ascii "a" ∧
        SanitizeBotToken (ascii "a") (ascii "") = ascii "***a***" ∧
        ascii "" <:+: SanitizeBotToken (ascii "a") (ascii "")) := by
  decide

/-! ## The line-break escape -/

/-- C4: for every byte string `b`, `EscapeMultiLine b` is `b` with every carriage return
(byte 13) replaced by backslash, `r` and every line feed (byte 10) by backslash, `n`,
all other bytes kept in order; it contains no raw carriage return and no raw line
feed. -/
theorem EscapeMultiLine_escapes_line_breaks (b : Str) :
    EscapeMultiLine b =
        b.flatMap (fun c =>
          if c = 13 then ascii "\\r" else if c = 10 then ascii "\\n" else [c]) ∧
      13 ∉ EscapeMultiLine b ∧ 10 ∉ EscapeMultiLine b :=
  ⟨EscapeMultiLine_eq_flatMap b, not_mem_EscapeMultiLine b⟩

/-! ## The dispatcher -/

theorem sendLoop_fail (w : World) (cfg : GofityConfig) (title message tok : Str)
    (rest : List Str) (h : List Call)
    (hf : accepted (w.PostForm h (postRequest cfg title message tok)) = false) :
    sendLoop w cfg title message (tok :: rest) h =
      (some (failureText tok (w.PostForm h (postRequest cfg title message tok))),
        h ++ [Call.post (postRequest cfg title message tok)]) := by
  cases hr : w.PostForm h (postRequest cfg title message tok) with
  | error err => simp [sendLoop, hr, failureText]
  | response status body =>
    rw [hr] at hf
    have hs : status ≠ 200 := by simpa [accepted] using hf
    simp [sendLoop, hr, failureText, hs]

theorem sendLoop_ok (w : World) (cfg : GofityConfig) (title message tok : Str)
    (rest : List Str) (h : List Call)
    (hf : accepted (w.PostForm h (postRequest cfg title message tok)) = true) :
    sendLoop w cfg title message (tok :: rest) h =
      sendLoop w cfg title message rest
        (h ++ [Call.post (postRequest cfg title message tok)]) := by
  cases hr : w.PostForm h (postRequest cfg title message tok) with
  | error err => rw [hr] at hf; simp [accepted] at hf
  | response status body =>
    rw [hr] at hf
    have hs : status = 200 := by simpa [accepted] using hf
    simp [sendLoop, hr, hs]

/-- While the POSTs are answered with 200 the loop moves on, one POST per token. -/
theorem sendLoop_append (w : World) (cfg : GofityConfig) (title message : Str) :
    ∀ (pre rest : List Str) (h : List Call),
      AllAccepted w h (pre.map (postRequest cfg title message)) →
      sendLoop w cfg title message (pre ++ rest) h =
        sendLoop w cfg title message rest
          (h ++ posts (pre.map (postRequest cfg title message))) := by
  intro pre
  induction pre with
  | nil => intro rest h _; simp [posts]
  | cons tok pre ih =>
    intro rest h hall
    simp only [List.map_cons, AllAccepted] at hall
    rw [List.cons_append, sendLoop_ok w cfg title message tok _ h hall.1, ih rest _ hall.2]
    simp [posts]

/-- C1: `SendEmailToGotify` tries the comma-split tokens in the configured order and
stops at the first whose POST errors or is answered with a status other than 200.  If
the tokens are `pre ++ tok :: post`, the POSTs for `pre` are all answered with 200 and
the POST for `tok` is not, then exactly the requests for `pre` and for `tok` are
posted, in this order (none for `post`), and the returned failure is the one built from
`tok` and its answer.  If every POST is answered with 200, exactly one request per token
is posted and the result is success. -/
theorem SendEmailToGotify_stops_at_first_failure (w : World) (h : List Call) (e : Envelope)
    (cfg : GofityConfig) :
    (∀ (pre : List Str) (tok : Str) (post : List Str),
        Split cfg.gotifyAPIToken (ascii ",") = pre ++ tok :: post →
        AllAccepted w h (requestsFor e cfg pre) →
        accepted (w.PostForm (h ++ posts (requestsFor e cfg pre))
          (postRequest cfg (FormatEmail e cfg.titleTemplate cfg.messageTemplate).1
            (FormatEmail e cfg.titleTemplate cfg.messageTemplate).2 tok)) = false →
        SendEmailToGotify w h e cfg =
          (some (failureText tok (w.PostForm (h ++ posts (requestsFor e cfg pre))
              (postRequest cfg (FormatEmail e cfg.titleTemplate cfg.messageTemplate).1
                (FormatEmail e cfg.titleTemplate cfg.messageTemplate).2 tok))),
            h ++ posts (requestsFor e cfg (pre ++ [tok])))) ∧
      (AllAccepted w h (requestsFor e cfg (Split cfg.gotifyAPIToken (ascii ","))) →
        SendEmailToGotify w h e cfg =
          (none, h ++ posts (requestsFor e cfg (Split cfg.gotifyAPIToken (ascii ","))))) := by
  constructor
  · intro pre tok post hsplit hall hfail
    unfold SendEmailToGotify
    simp only [hsplit]
    unfold requestsFor at hall hfail ⊢
    rw [sendLoop_append w cfg _ _ pre _ h hall, sendLoop_fail w cfg _ _ tok post _ hfail]
    simp [posts]
  · intro hall
    unfold SendEmailToGotify
    unfold requestsFor at hall ⊢
    have := sendLoop_append w cfg _ _ _ [] h hall
    rw [List.append_nil] at this
    rw [this]
    simp [sendLoop]

/-- Three destinations of which the second answers 500: two POSTs are made, and the
failure is the one of the second destination. -/
theorem SendEmailToGotify_stops_at_first_failure_witness :
    (SendEmailToGotify (sampleWorld 1 (.response 500 (ascii "down"))) [] sampleEnvelope
        (sampleConfig (ascii "t1,t2,t3"))).1 =
        some (ascii "Non-200 response from Gotify Server: (500) down") ∧
      (SendEmailToGotify (sampleWorld 1 (.response 500 (ascii "down"))) [] sampleEnvelope
        (sampleConfig (ascii "t1,t2,t3"))).2 =
        posts [postRequest (sampleConfig (ascii "t1,t2,t3")) (ascii "Hi") (ascii "There")
            (ascii "t1"),
          postRequest (sampleConfig (ascii "t1,t2,t3")) (ascii "Hi") (ascii "There")
            (ascii "t2")] := by
  have h := (SendEmailToGotify_stops_at_first_failure
    (sampleWorld 1 (.response 500 (ascii "down"))) [] sampleEnvelope
    (sampleConfig (ascii "t1,t2,t3"))).1 [ascii "t1"] (ascii "t2") [ascii "t3"]
    (by decide) ⟨by decide, trivial⟩ (by decide)
  rw [h]
  exact ⟨by decide, rfl⟩

/-! ## What survives a replacement -/

theorem prefix_ReplaceAll_of_disjoint {tok : Str} (htok : tok ≠ []) (new : Str) :
    ∀ (u s : Str), (∀ x ∈ u, x ∉ tok) → u <+: s → u <+: ReplaceAll s tok new := by
  intro u
  induction u with
  | nil => intro s _ _; exact List.nil_prefix
  | cons x u ih =>
    intro s hu hp
    obtain ⟨r, rfl⟩ := hp
    have hx : x ∉ tok := hu x (List.mem_cons_self _ _)
    rw [List.cons_append, ReplaceAll_cons htok new (not_prefix_cons_of_not_mem _ htok hx)]
    rw [List.cons_prefix_cons]
    exact ⟨rfl, ih _ (fun y hy => hu y (List.mem_cons_of_mem _ hy)) (List.prefix_append _ _)⟩

/-- A text that shares no byte with the token and occurs in `s` still occurs in `s`
once the token is replaced. -/
theorem infix_ReplaceAll_of_disjoint {tok : Str} (htok : tok ≠ []) (new u : Str)
    (hu : ∀ x ∈ u, x ∉ tok) :
    ∀ s : Str, u <:+: s → u <:+: ReplaceAll s tok new := by
  by_cases hne : u = []
  · intro s _; rw [hne]; exact ⟨[], _, rfl⟩
  refine replace_induction htok
    (P := fun s => u <:+: s → u <:+: ReplaceAll s tok new) ?_ ?_ ?_
  · intro h; rw [ReplaceAll_nil htok]; exact h
  · intro s hp ih h
    rw [ReplaceAll_at_match htok new hp]
    rw [← List.prefix_iff_eq_append.mp hp] at h
    have h' := infix_of_infix_append_disjoint hne tok _
      (fun x hx hxu => hu x hxu hx) h
    exact (ih h').trans ⟨new, [], by simp⟩
  · intro c t hp ih h
    rw [ReplaceAll_cons htok new hp]
    rw [List.infix_cons_iff] at h
    rcases h with h | h
    · have := prefix_ReplaceAll_of_disjoint htok new u (c :: t) hu h
      rw [ReplaceAll_cons htok new hp] at this
      exact this.isInfix
    · exact List.infix_cons (ih h)

/-- When the token occurs in the text, the replacement occurs in the replaced text. -/
theorem new_infix_ReplaceAll {tok : Str} (htok : tok ≠ []) (new s : Str) (h : tok <:+: s) :
    new <:+: ReplaceAll s tok new := by
  obtain ⟨pieces, hcut, hjoin, hrep⟩ := ReplaceAll_cut htok new s
  rw [← hrep]
  match pieces, hcut, hjoin with
  | [], hcut, _ => exact absurd hcut (by simp [LeftmostCut])
  | [p], hcut, hjoin =>
    simp only [LeftmostCut] at hcut
    simp only [Join] at hjoin
    exact absurd (hjoin ▸ h) hcut
  | p :: q :: rest, _, _ =>
    rw [Join_cons_cons]
    exact ⟨p, Join (q :: rest) new, by simp⟩

theorem EscapeMultiLine_append (a b : Str) :
    EscapeMultiLine (a ++ b) = EscapeMultiLine a ++ EscapeMultiLine b := by
  simp only [EscapeMultiLine_eq_flatMap, List.flatMap_append]

theorem EscapeMultiLine_of_no_line_break :
    ∀ t : Str, 13 ∉ t → 10 ∉ t → EscapeMultiLine t = t := by
  intro t
  rw [EscapeMultiLine_eq_flatMap]
  induction t with
  | nil => intro _ _; rfl
  | cons x t ih =>
    intro h13 h10
    simp only [List.mem_cons, not_or] at h13 h10
    have hx13 : x ≠ 13 := fun h => h13.1 h.symm
    have hx10 : x ≠ 10 := fun h => h10.1 h.symm
    simp [hx13, hx10, ih h13.2 h10.2]

/-- A token without line breaks that occurs in a body occurs in the escaped body. -/
theorem infix_EscapeMultiLine {tok body : Str} (h13 : 13 ∉ tok) (h10 : 10 ∉ tok)
    (h : tok <:+: body) : tok <:+: EscapeMultiLine body := by
  obtain ⟨a, c, rfl⟩ := h
  rw [EscapeMultiLine_append, EscapeMultiLine_append, EscapeMultiLine_of_no_line_break tok h13 h10]
  exact ⟨_, _, rfl⟩

/-- A line feed of the body shows as backslash, `n` in the escaped body. -/
theorem escape_infix_EscapeMultiLine {body : Str} (h : 10 ∈ body) :
    ascii "\\n" <:+: EscapeMultiLine body := by
  obtain ⟨a, c, rfl⟩ := List.append_of_mem h
  have : EscapeMultiLine [10] = ascii "\\n" := by decide
  have hc : (10 :: c : Str) = [10] ++ c := rfl
  rw [hc, EscapeMultiLine_append, EscapeMultiLine_append, this]
  exact ⟨EscapeMultiLine a, EscapeMultiLine c, by simp⟩

theorem mem_decimalDigits :
    ∀ (fuel n : Nat) (acc : Str) (x : Nat),
      x ∈ decimalDigits fuel n acc → x ∈ acc ∨ (48 ≤ x ∧ x ≤ 57) := by
  intro fuel
  induction fuel with
  | zero => intro n acc x h; exact Or.inl (by simpa [decimalDigits] using h)
  | succ k ih =>
    intro n acc x h
    by_cases hn : n < 10
    · simp only [decimalDigits, hn, if_true, List.mem_cons] at h
      rcases h with h | h
      · right; omega
      · exact Or.inl h
    · simp only [decimalDigits, hn, if_false] at h
      rcases ih _ _ x h with h | h
      · rw [List.mem_cons] at h
        rcases h with h | h
        · right; omega
        · exact Or.inl h
      · exact Or.inr h

/-- The decimal form of a status holds only the sign and digits. -/
theorem mem_formatInt (i : Int) (x : Nat) (h : x ∈ formatInt i) :
    x = 45 ∨ (48 ≤ x ∧ x ≤ 57) := by
  unfold formatInt at h
  by_cases hi : i < 0
  · simp only [hi, if_true, List.mem_cons] at h
    rcases h with h | h
    · exact Or.inl h
    · rcases mem_decimalDigits _ _ _ x h with h | h
      · simp at h
      · exact Or.inr h
  · simp only [hi, if_false] at h
    rcases mem_decimalDigits _ _ _ x h with h | h
    · simp at h
    · exact Or.inr h

/-- The line built for a response that is not 200 holds no raw line break. -/
theorem not_mem_non200_line (status : Int) (body tok : Str) (x : Nat)
    (hx : x = 13 ∨ x = 10) :
    x ∉ ascii "Non-200 response from Gotify Server: (" ++ formatInt status ++ ascii ") " ++
      SanitizeBotToken (EscapeMultiLine body) tok := by
  have hpre : 13 ∉ ascii "Non-200 response from Gotify Server: (" ∧
      10 ∉ ascii "Non-200 response from Gotify Server: (" := by decide
  have hmid : 13 ∉ ascii ") " ∧ 10 ∉ ascii ") " := by decide
  have hesc := not_mem_EscapeMultiLine body
  intro h
  simp only [List.mem_append] at h
  rcases h with ((h | h) | h) | h
  · rcases hx with rfl | rfl
    · exact hpre.1 h
    · exact hpre.2 h
  · rcases mem_formatInt _ _ h with h | h <;> omega
  · rcases hx with rfl | rfl
    · exact hmid.1 h
    · exact hmid.2 h
  · rcases mem_ReplaceAll _ _ _ _ h with h | h
    · rcases hx with rfl | rfl
      · exact hesc.1 h
      · exact hesc.2 h
    · rw [ascii_stars] at h
      simp only [List.mem_cons, List.mem_singleton, List.not_mem_nil, or_false, or_self] at h
      omega

theorem stars_infix_SanitizeBotToken (s tok : Str) (h : tok <:+: s) :
    ascii "***" <:+: SanitizeBotToken s tok := by
  by_cases htok : tok = []
  · simp only [SanitizeBotToken, ReplaceAll, htok, if_true]
    exact ⟨[], replaceRunes (ascii "***") s.length s, rfl⟩
  · exact new_infix_ReplaceAll htok _ s h

/-- A failure of the loop comes from the first token whose POST is not answered with 200:
the tokens before it were all answered with 200, exactly the requests up to it were
posted, and the error text is built from this token and its answer. -/
theorem sendLoop_failure (w : World) (cfg : GofityConfig) (title message : Str) :
    ∀ (toks : List Str) (h : List Call) (err : Str) (h1 : List Call),
      sendLoop w cfg title message toks h = (some err, h1) →
      ∃ (pre : List Str) (tok : Str) (post : List Str),
        toks = pre ++ tok :: post ∧
        AllAccepted w h (pre.map (postRequest cfg title message)) ∧
        h1 = h ++ posts ((pre ++ [tok]).map (postRequest cfg title message)) ∧
        accepted (w.PostForm (h ++ posts (pre.map (postRequest cfg title message)))
          (postRequest cfg title message tok)) = false ∧
        err = failureText tok
          (w.PostForm (h ++ posts (pre.map (postRequest cfg title message)))
            (postRequest cfg title message tok)) := by
  intro toks
  induction toks with
  | nil => intro h err h1 hs; simp [sendLoop] at hs
  | cons tok rest ih =>
    intro h err h1 hs
    by_cases hacc : accepted (w.PostForm h (postRequest cfg title message tok)) = true
    · rw [sendLoop_ok w cfg title message tok rest h hacc] at hs
      obtain ⟨pre, t, post, hsplit, hall, hh, hf, he⟩ := ih _ err h1 hs
      refine ⟨tok :: pre, t, post, by rw [hsplit]; rfl, ⟨hacc, hall⟩, ?_, ?_, ?_⟩
      · rw [hh]; simp [posts]
      · simpa [posts] using hf
      · simpa [posts] using he
    · have hacc' : accepted (w.PostForm h (postRequest cfg title message tok)) = false := by
        simpa using hacc
      rw [sendLoop_fail w cfg title message tok rest h hacc'] at hs
      simp only [Prod.mk.injEq, Option.some.injEq] at hs
      refine ⟨[], tok, rest, rfl, trivial, ?_, ?_, ?_⟩
      · rw [← hs.2]; simp [posts]
      · simpa [posts] using hacc'
      · simpa [posts] using hs.1.symm

/-- C5, as amended: when the tokens before `tok` are all answered with 200 and the POST
for `tok` is answered with a status `status` other than 200 and the body `body`,
`SendEmailToGotify` returns a failure whose text is exactly
`Non-200 response from Gotify Server: (`, the decimal form of `status`, `) ` and
`SanitizeBotToken (EscapeMultiLine body) tok`.  That text holds no raw carriage return
or line feed.  If the body contains the token and the token holds no carriage return or
line feed, the text contains `***`; if the body contains a line feed and the token is
non-empty and holds neither a backslash nor the letter `n`, the text contains the
two-character sequence backslash, `n`. -/
theorem SendEmailToGotify_non_200_failure (w : World) (h : List Call) (e : Envelope)
    (cfg : GofityConfig) (pre : List Str) (tok : Str) (post : List Str) (status : Int)
    (body : Str)
    (hsplit : Split cfg.gotifyAPIToken (ascii ",") = pre ++ tok :: post)
    (hall : AllAccepted w h (requestsFor e cfg pre))
    (hresp : w.PostForm (h ++ posts (requestsFor e cfg pre))
      (postRequest cfg (FormatEmail e cfg.titleTemplate cfg.messageTemplate).1
        (FormatEmail e cfg.titleTemplate cfg.messageTemplate).2 tok) =
      .response status body)
    (hstatus : status ≠ 200) :
    ∃ err : Str, (SendEmailToGotify w h e cfg).1 = some err ∧
      err = ascii "Non-200 response from Gotify Server: (" ++ formatInt status ++ ascii ") " ++
        SanitizeBotToken (EscapeMultiLine body) tok ∧
      13 ∉ err ∧ 10 ∉ err ∧
      (13 ∉ tok → 10 ∉ tok → tok <:+: body → ascii "***" <:+: err) ∧
      (tok ≠ [] → 92 ∉ tok → 110 ∉ tok → 10 ∈ body → ascii "\\n" <:+: err) := by
  refine ⟨_, ?_, rfl, not_mem_non200_line status body tok 13 (Or.inl rfl),
    not_mem_non200_line status body tok 10 (Or.inr rfl), ?_, ?_⟩
  · unfold SendEmailToGotify
    simp only [hsplit]
    unfold requestsFor at hall hresp
    have hacc : accepted (w.PostForm (h ++ posts (List.map (postRequest cfg
        (FormatEmail e cfg.titleTemplate cfg.messageTemplate).1
        (FormatEmail e cfg.titleTemplate cfg.messageTemplate).2) pre))
        (postRequest cfg (FormatEmail e cfg.titleTemplate cfg.messageTemplate).1
          (FormatEmail e cfg.titleTemplate cfg.messageTemplate).2 tok)) = false := by
      rw [hresp]; simpa [accepted] using hstatus
    rw [sendLoop_append w cfg _ _ pre _ h hall, sendLoop_fail w cfg _ _ tok post _ hacc, hresp]
    rfl
  · intro h13 h10 hocc
    exact (stars_infix_SanitizeBotToken _ tok (infix_EscapeMultiLine h13 h10 hocc)).trans
      (List.suffix_append _ _).isInfix
  · intro htok h92 h110 hlf
    have hdisj : ∀ x ∈ ascii "\\n", x ∉ tok := by
      intro x hx
      have h4 : ascii "\\n" = [92, 110] := by decide
      rw [h4] at hx
      simp only [List.mem_cons, List.mem_singleton, List.not_mem_nil, or_false] at hx
      rcases hx with rfl | rfl
      · exact h92
      · exact h110
    exact (infix_ReplaceAll_of_disjoint htok (ascii "***") (ascii "\\n") hdisj _
      (escape_infix_EscapeMultiLine hlf)).trans (List.suffix_append _ _).isInfix

/-- A 500 response whose body holds the token `tok1` and a line feed: the error holds
`***` for the token and backslash, `n` for the line feed. -/
theorem SendEmailToGotify_non_200_failure_witness :
    (SendEmailToGotify (sampleWorld 0 (.response 500 (ascii "bad tok1\nmore"))) []
        sampleEnvelope (sampleConfig (ascii "tok1"))).1 =
      some (ascii "Non-200 response from Gotify Server: (500) bad ***\\nmore") := by
  obtain ⟨err, h1, h2, _⟩ := SendEmailToGotify_non_200_failure
    (sampleWorld 0 (.response 500 (ascii "bad tok1\nmore"))) [] sampleEnvelope
    (sampleConfig (ascii "tok1")) [] (ascii "tok1") [] 500 (ascii "bad tok1\nmore")
    (by decide) trivial (by decide) (by decide)
  rw [h1, h2]
  decide

/-- C5 fails as stated in its last part: each of these 500 responses has a body that
contains the token and a line feed.  With the token `n` and the body `n`, line feed, the
error text ends in `***`, backslash, `***`: the two-character sequence backslash, `n` is
not in it.  The same happens with the token backslash and the body backslash, line feed,
and with the empty token and the body line feed.  With the token `a`, line feed, `b`
and this very body, the error text ends in `a`, backslash, `n`, `b`: there is no `***`
in it; likewise with a carriage return in the token. -/
theorem SendEmailToGotify_non_200_escape_lost :
    (ascii "n" <:+: ascii "n\n" ∧ 10 ∈ ascii "n\n" ∧
        (SendEmailToGotify (sampleWorld 0 (.response 500 (ascii "n\n"))) []
            sampleEnvelope (sampleConfig (ascii "n"))).1 =
          some (ascii "Non-200 response from Gotify Server: (500) ***\\***") ∧
        ¬ ascii "\\n" <:+: ascii "Non-200 response from Gotify Server: (500) ***\\***") ∧
      (ascii "\\" <:+: ascii "\\\n" ∧ 10 ∈ ascii "\\\n" ∧
        (SendEmailToGotify (sampleWorld 0 (.response 500 (ascii "\\\n"))) []
            sampleEnvelope (sampleConfig (ascii "\\"))).1 =
          some (ascii "Non-200 response from Gotify Server: (500) ******n") ∧
        ¬ ascii "\\n" <:+: ascii "Non-200 response from Gotify Server: (500) ******n") ∧
      (ascii "" <:+: ascii "\n" ∧ 10 ∈ ascii "\n" ∧
        (SendEmailToGotify (sampleWorld 0 (.response 500 (ascii "\n"))) []
            sampleEnvelope (sampleConfig (ascii ""))).1 =
          some (ascii "Non-200 response from Gotify Server: (500) ***\\***n***") ∧
        ¬ ascii "\\n" <:+:
          ascii "Non-200 response from Gotify Server: (500) ***\\***n***") ∧
      (ascii "a\nb" <:+: ascii "a\nb" ∧ 10 ∈ ascii "a\nb" ∧
        (SendEmailToGotify (sampleWorld 0 (.response 500 (ascii "a\nb"))) []
            sampleEnvelope (sampleConfig (ascii "a\nb"))).1 =
          some (ascii "Non-200 response from Gotify Server: (500) a\\nb") ∧
        ¬ ascii "***" <:+: ascii "Non-200 response from Gotify Server: (500) a\\nb") ∧
      (ascii "a\rb" <:+: ascii "a\rb\n" ∧ 10 ∈ ascii "a\rb\n" ∧
        (SendEmailToGotify (sampleWorld 0 (.response 500 (ascii "a\rb\n"))) []
            sampleEnvelope (sampleConfig (ascii "a\rb"))).1 =
          some (ascii "Non-200 response from Gotify Server: (500) a\\rb\\n") ∧
        ¬ ascii "***" <:+:
          ascii "Non-200 response from Gotify Server: (500) a\\rb\\n") := by
  decide

/-- C2, as amended: whenever `SendEmailToGotify` returns a failure, the comma-split tokens
are `pre ++ tok :: post` where the POSTs for `pre` were all answered with 200 and the POST
for `tok`, the last one made, was not.  If that POST failed with the transport error text
`text`, the returned text is exactly `SanitizeBotToken text tok`; if it was answered with
the status `status` other than 200 and the body `body`, the returned text is exactly
`Non-200 response from Gotify Server: (`, the decimal form of `status`, `) ` and
`SanitizeBotToken (EscapeMultiLine body) tok`.  When `tok` is non-empty and holds no `*`,
the sanitised part (the whole text in the first case, what follows the fixed beginning in
the second) contains no occurrence of `tok`. -/
theorem SendEmailToGotify_failure_redacts_token (w : World) (h : List Call) (e : Envelope)
    (cfg : GofityConfig) (err : Str) (h1 : List Call)
    (hfail : SendEmailToGotify w h e cfg = (some err, h1)) :
    ∃ (pre : List Str) (tok : Str) (post : List Str),
      Split cfg.gotifyAPIToken (ascii ",") = pre ++ tok :: post ∧
      AllAccepted w h (requestsFor e cfg pre) ∧
      h1 = h ++ posts (requestsFor e cfg (pre ++ [tok])) ∧
      ((∃ text : Str,
          w.PostForm (h ++ posts (requestsFor e cfg pre))
            (postRequest cfg (FormatEmail e cfg.titleTemplate cfg.messageTemplate).1
              (FormatEmail e cfg.titleTemplate cfg.messageTemplate).2 tok) = .error text ∧
          err = SanitizeBotToken text tok ∧
          (tok ≠ [] → 42 ∉ tok → ¬ tok <:+: err)) ∨
        (∃ (status : Int) (body : Str),
          w.PostForm (h ++ posts (requestsFor e cfg pre))
            (postRequest cfg (FormatEmail e cfg.titleTemplate cfg.messageTemplate).1
              (FormatEmail e cfg.titleTemplate cfg.messageTemplate).2 tok) =
            .response status body ∧
          status ≠ 200 ∧
          err = ascii "Non-200 response from Gotify Server: (" ++ formatInt status ++
            ascii ") " ++ SanitizeBotToken (EscapeMultiLine body) tok ∧
          (tok ≠ [] → 42 ∉ tok →
            ¬ tok <:+: SanitizeBotToken (EscapeMultiLine body) tok))) := by
  unfold SendEmailToGotify at hfail
  obtain ⟨pre, tok, post, hsplit, hall, hh, hacc, herr⟩ :=
    sendLoop_failure w cfg _ _ _ h err h1 hfail
  refine ⟨pre, tok, post, hsplit, hall, hh, ?_⟩
  unfold requestsFor
  cases hr : w.PostForm (h ++ posts (List.map (postRequest cfg
      (FormatEmail e cfg.titleTemplate cfg.messageTemplate).1
      (FormatEmail e cfg.titleTemplate cfg.messageTemplate).2) pre))
      (postRequest cfg (FormatEmail e cfg.titleTemplate cfg.messageTemplate).1
        (FormatEmail e cfg.titleTemplate cfg.messageTemplate).2 tok) with
  | error text =>
    rw [hr] at herr
    refine Or.inl ⟨text, rfl, herr, ?_⟩
    rw [herr]
    exact not_infix_SanitizeBotToken text tok
  | response status body =>
    rw [hr] at herr hacc
    have hs : status ≠ 200 := by simpa [accepted] using hacc
    exact Or.inr ⟨status, body, rfl, hs, herr, not_infix_SanitizeBotToken _ tok⟩

/-- The only token `tok1` and a transport error whose text quotes the URL: the returned
text is the error text with the token redacted. -/
theorem SendEmailToGotify_failure_redacts_token_witness :
    (SendEmailToGotify
        (sampleWorld 0 (.error (ascii "Post \"http://g/message?token=tok1\": EOF"))) []
        sampleEnvelope (sampleConfig (ascii "tok1"))).1 =
        some (ascii "Post \"http://g/message?token=***\": EOF") ∧
      ∃ (pre : List Str) (tok : Str) (post : List Str),
        Split (ascii "tok1") (ascii ",") = pre ++ tok :: post ∧
        ((∃ text : Str,
            (sampleWorld 0 (.error (ascii "Post \"http://g/message?token=tok1\": EOF"))).PostForm
              ([] ++ posts (requestsFor sampleEnvelope (sampleConfig (ascii "tok1")) pre))
              (postRequest (sampleConfig (ascii "tok1"))
                (FormatEmail sampleEnvelope (ascii "{subject}") (ascii "{body}")).1
                (FormatEmail sampleEnvelope (ascii "{subject}") (ascii "{body}")).2 tok) =
              .error text ∧
            ascii "Post \"http://g/message?token=***\": EOF" = SanitizeBotToken text tok ∧
            (tok ≠ [] → 42 ∉ tok →
              ¬ tok <:+: ascii "Post \"http://g/message?token=***\": EOF")) ∨
          (∃ (status : Int) (body : Str),
            (sampleWorld 0 (.error (ascii "Post \"http://g/message?token=tok1\": EOF"))).PostForm
              ([] ++ posts (requestsFor sampleEnvelope (sampleConfig (ascii "tok1")) pre))
              (postRequest (sampleConfig (ascii "tok1"))
                (FormatEmail sampleEnvelope (ascii "{subject}") (ascii "{body}")).1
                (FormatEmail sampleEnvelope (ascii "{subject}") (ascii "{body}")).2 tok) =
              .response status body ∧
            status ≠ 200 ∧
            ascii "Post \"http://g/message?token=***\": EOF" =
              ascii "Non-200 response from Gotify Server: (" ++ formatInt status ++
                ascii ") " ++ SanitizeBotToken (EscapeMultiLine body) tok ∧
            (tok ≠ [] → 42 ∉ tok →
              ¬ tok <:+: SanitizeBotToken (EscapeMultiLine body) tok))) := by
  refine ⟨by decide, ?_⟩
  obtain ⟨pre, tok, post, hsplit, _, _, hcases⟩ := SendEmailToGotify_failure_redacts_token
    (sampleWorld 0 (.error (ascii "Post \"http://g/message?token=tok1\": EOF"))) []
    sampleEnvelope (sampleConfig (ascii "tok1"))
    (ascii "Post \"http://g/message?token=***\": EOF")
    (posts [postRequest (sampleConfig (ascii "tok1")) (ascii "Hi") (ascii "There")
      (ascii "tok1")])
    (by rfl)
  exact ⟨pre, tok, post, hsplit, hcases⟩

/-- C2 fails as stated.  With the only token `e` and a 500 response with an empty body,
the returned text is `Non-200 response from Gotify Server: (500) `, which contains
`e`.  With the tokens `a` and `b` and a transport error with the text `b` on the first
POST, the returned text is `b`, a configured token.  With the only token `*` and a
transport error with the text `x*y`, the returned text `x***y` contains `*`.  With an
empty token list, whose only token is the empty one, and a transport error with the text
`x`, the returned text `***x***` contains the empty token. -/
theorem SendEmailToGotify_token_in_error :
    (ascii "e" ∈ Split (ascii "e") (ascii ",") ∧
        (SendEmailToGotify (sampleWorld 0 (.response 500 [])) [] sampleEnvelope
            (sampleConfig (ascii "e"))).1 =
          some (ascii "Non-200 response from Gotify Server: (500) ") ∧
        ascii "e" <:+: ascii "Non-200 response from Gotify Server: (500) ") ∧
      (ascii "b" ∈ Split (ascii "a,b") (ascii ",") ∧
        (SendEmailToGotify (sampleWorld 0 (.error (ascii "b"))) [] sampleEnvelope
            (sampleConfig (ascii "a,b"))).1 = some (ascii "b") ∧
        ascii "b" <:+: ascii "b") ∧
      (ascii "*" ∈ Split (ascii "*") (ascii ",") ∧
        (SendEmailToGotify (sampleWorld 0 (.error (ascii "x*y"))) [] sampleEnvelope
            (sampleConfig (ascii "*"))).1 = some (ascii "x***y") ∧
        ascii "*" <:+: ascii "x***y") ∧
      (ascii "" ∈ Split (ascii "") (ascii ",") ∧
        (SendEmailToGotify (sampleWorld 0 (.error (ascii "x"))) [] sampleEnvelope
            (sampleConfig (ascii ""))).1 = some (ascii "***x***") ∧
        ascii "" <:+: ascii "***x***") := by
  decide

/-! ## The processing stage -/

/-- The loop only adds POSTs to the history. -/
theorem sendLoop_history (w : World) (cfg : GofityConfig) (title message : Str) :
    ∀ (toks : List Str) (h : List Call),
      ∃ reqs : List Request, (sendLoop w cfg title message toks h).2 = h ++ posts reqs := by
  intro toks
  induction toks with
  | nil => intro h; exact ⟨[], by simp [sendLoop, posts]⟩
  | cons tok rest ih =>
    intro h
    by_cases hacc : accepted (w.PostForm h (postRequest cfg title message tok)) = true
    · rw [sendLoop_ok w cfg title message tok rest h hacc]
      obtain ⟨reqs, hr⟩ := ih (h ++ [Call.post (postRequest cfg title message tok)])
      exact ⟨postRequest cfg title message tok :: reqs, by rw [hr]; simp [posts]⟩
    · have hacc' : accepted (w.PostForm h (postRequest cfg title message tok)) = false := by
        simpa using hacc
      rw [sendLoop_fail w cfg title message tok rest h hacc']
      exact ⟨[postRequest cfg title message tok], by simp [posts]⟩

/-- C6: when the stage is invoked with the persist event `TaskSaveMail` and the dispatch
fails with the error text `t`, the stage returns the result whose line is `554 Error: `
followed by `t` (so its first three characters, the status code, are `554`), returns the
dispatch error, and makes no call to the next stage: the history grows by POSTs only. -/
theorem stage_rejects_on_dispatch_failure (cfg : GofityConfig) (w : World) (h : List Call)
    (e : Envelope) (t : Str) (h1 : List Call)
    (hfail : SendEmailToGotify w h e cfg = (some t, h1)) :
    GotifyBotProcessorFactory cfg w h e TaskSaveMail =
        ((Result.mk (ascii "554 Error: " ++ t), some t), h1) ∧
      (ascii "554 Error: " ++ t).take 3 = ascii "554" ∧
      ∃ reqs : List Request, h1 = h ++ posts reqs := by
  refine ⟨?_, ?_, ?_⟩
  · simp [GotifyBotProcessorFactory, hfail]
  · have : ascii "554 Error: " = [53, 53, 52, 32, 69, 114, 114, 111, 114, 58, 32] := by decide
    have h554 : ascii "554" = [53, 53, 52] := by decide
    rw [this, h554]; rfl
  · obtain ⟨reqs, hr⟩ := sendLoop_history w cfg
      (FormatEmail e cfg.titleTemplate cfg.messageTemplate).1
      (FormatEmail e cfg.titleTemplate cfg.messageTemplate).2
      (Split cfg.gotifyAPIToken (ascii ",")) h
    refine ⟨reqs, ?_⟩
    unfold SendEmailToGotify at hfail
    rw [hfail] at hr
    exact hr

/-- An unreachable destination: the stage answers 554 with the redacted description of
the connection error, after the one POST. -/
theorem stage_rejects_on_dispatch_failure_witness :
    GotifyBotProcessorFactory (sampleConfig (ascii "tok1"))
        (sampleWorld 0 (.error (ascii "Post \"http://g/message?token=tok1\": refused"))) []
        sampleEnvelope TaskSaveMail =
      ((Result.mk (ascii "554 Error: Post \"http://g/message?token=***\": refused"),
          some (ascii "Post \"http://g/message?token=***\": refused")),
        posts [postRequest (sampleConfig (ascii "tok1")) (ascii "Hi") (ascii "There")
          (ascii "tok1")]) :=
  (stage_rejects_on_dispatch_failure (sampleConfig (ascii "tok1"))
    (sampleWorld 0 (.error (ascii "Post \"http://g/message?token=tok1\": refused"))) []
    sampleEnvelope (ascii "Post \"http://g/message?token=***\": refused")
    (posts [postRequest (sampleConfig (ascii "tok1")) (ascii "Hi") (ascii "There")
      (ascii "tok1")])
    (by rfl)).1

/-- C7: for every event other than the persist event the stage returns exactly what the
next stage returns for the same envelope and event, and its only call is that one (no
POST is made); for the persist event with a successful dispatch it returns exactly what
the next stage returns, called after the POSTs of the dispatch. -/
theorem stage_delegates (cfg : GofityConfig) (w : World) (h : List Call) (e : Envelope)
    (task : SelectTask) :
    (task ≠ TaskSaveMail →
        GotifyBotProcessorFactory cfg w h e task =
          (w.Process h e task, h ++ [Call.process e task])) ∧
      (∀ h1 : List Call, SendEmailToGotify w h e cfg = (none, h1) →
        GotifyBotProcessorFactory cfg w h e TaskSaveMail =
          (w.Process h1 e TaskSaveMail, h1 ++ [Call.process e TaskSaveMail])) := by
  constructor
  · intro ht
    simp [GotifyBotProcessorFactory, ht]
  · intro h1 hs
    simp [GotifyBotProcessorFactory, hs]

/-- The recipient-validation event (task 1) goes straight to the next stage, and a
persist event whose two POSTs are answered with 200 reaches it after them. -/
theorem stage_delegates_witness :
    GotifyBotProcessorFactory (sampleConfig (ascii "t1,t2")) (sampleWorld 5 (.error [])) []
        sampleEnvelope 1 =
        ((⟨ascii "250 OK"⟩, none), [Call.process sampleEnvelope 1]) ∧
      GotifyBotProcessorFactory (sampleConfig (ascii "t1,t2")) (sampleWorld 5 (.error [])) []
        sampleEnvelope TaskSaveMail =
        ((⟨ascii "250 OK"⟩, none),
          posts [postRequest (sampleConfig (ascii "t1,t2")) (ascii "Hi") (ascii "There")
              (ascii "t1"),
            postRequest (sampleConfig (ascii "t1,t2")) (ascii "Hi") (ascii "There")
              (ascii "t2")] ++ [Call.process sampleEnvelope TaskSaveMail]) :=
  ⟨(stage_delegates (sampleConfig (ascii "t1,t2")) (sampleWorld 5 (.error [])) []
      sampleEnvelope 1).1 (by decide),
    (stage_delegates (sampleConfig (ascii "t1,t2")) (sampleWorld 5 (.error [])) []
      sampleEnvelope TaskSaveMail).2 _ (by rfl)⟩

/-- When the failing POST of a rejected message was answered with a response (a status
other than 200), the client-visible reason holds no raw line break. -/
theorem failureText_response_single_line (tok : Str) (status : Int) (body : Str) :
    13 ∉ ascii "554 Error: " ++ failureText tok (.response status body) ∧
      10 ∉ ascii "554 Error: " ++ failureText tok (.response status body) := by
  have hpre : 13 ∉ ascii "554 Error: " ∧ 10 ∉ ascii "554 Error: " := by decide
  constructor
  · intro h
    rcases List.mem_append.mp h with h | h
    · exact hpre.1 h
    · exact not_mem_non200_line status body tok 13 (Or.inl rfl) h
  · intro h
    rcases List.mem_append.mp h with h | h
    · exact hpre.2 h
    · exact not_mem_non200_line status body tok 10 (Or.inr rfl) h

/-- C8 fails on the transport-error path: with the only token `tok1` and a transport
error whose text holds a line feed, the stage rejects the message on the persist event
with a reason that holds the raw line feed (byte 10). -/
theorem stage_reason_keeps_line_feed :
    (GotifyBotProcessorFactory (sampleConfig (ascii "tok1"))
        (sampleWorld 0 (.error (ascii "proxy said:\nno route"))) []
        sampleEnvelope TaskSaveMail).1 =
        (Result.mk (ascii "554 Error: proxy said:\nno route"),
          some (ascii "proxy said:\nno route")) ∧
      10 ∈ ascii "554 Error: proxy said:\nno route" := by
  decide

/-! ## The scan of the generic replacer -/

theorem replacerLookup_some {oldnew : List (Str × Str)} {s : Str} {p : Str × Str}
    (h : replacerLookup oldnew s = some p) : p ∈ oldnew ∧ p.1 <+: s := by
  unfold replacerLookup at h
  have hpred := List.find?_some (p := fun q : Str × Str => q.1.isPrefixOf s) h
  exact ⟨List.mem_of_find?_eq_some h, List.isPrefixOf_iff_prefix.mp hpred⟩

theorem replacerLookup_nil {oldnew : List (Str × Str)} (hkeys : ∀ p ∈ oldnew, p.1 ≠ []) :
    replacerLookup oldnew [] = none := by
  cases hl : replacerLookup oldnew [] with
  | none => rfl
  | some p =>
    obtain ⟨hp, hpre⟩ := replacerLookup_some hl
    exact absurd (List.prefix_nil.mp hpre) (hkeys p hp)

theorem replacerFrom_nil {oldnew : List (Str × Str)} (hkeys : ∀ p ∈ oldnew, p.1 ≠ [])
    (fuel : Nat) : replacerFrom oldnew fuel [] = [] := by
  cases fuel <;> simp [replacerFrom, replacerLookup_nil hkeys]

theorem replacerFrom_fuel_aux {oldnew : List (Str × Str)}
    (hkeys : ∀ p ∈ oldnew, p.1 ≠ []) :
    ∀ (k : Nat) (s : Str) (f1 f2 : Nat), s.length ≤ k → s.length ≤ f1 → s.length ≤ f2 →
      replacerFrom oldnew f1 s = replacerFrom oldnew f2 s := by
  intro k
  induction k with
  | zero =>
    intro s f1 f2 hk _ _
    have : s = [] := List.length_eq_zero.mp (Nat.le_zero.mp hk)
    subst this
    simp [replacerFrom_nil hkeys]
  | succ k ih =>
    intro s f1 f2 hk h1 h2
    cases s with
    | nil => simp [replacerFrom_nil hkeys]
    | cons c t =>
      simp only [List.length_cons] at hk h1 h2
      obtain ⟨n, rfl⟩ : ∃ n, f1 = n + 1 := ⟨f1 - 1, by omega⟩
      obtain ⟨m, rfl⟩ : ∃ m, f2 = m + 1 := ⟨f2 - 1, by omega⟩
      simp only [replacerFrom]
      cases hl : replacerLookup oldnew (c :: t) with
      | none => simp only []; rw [ih t n m (by omega) (by omega) (by omega)]
      | some p =>
        obtain ⟨hp, hpre⟩ := replacerLookup_some hl
        have := prefix_length_pos (hkeys p hp) hpre
        simp only [List.length_cons] at this
        simp only []
        rw [ih _ n m (by omega) (by omega) (by omega)]

/-- Fuel beyond the length of the template does not change what the replacer scan
returns. -/
theorem replacerFrom_fuel {oldnew : List (Str × Str)} (hkeys : ∀ p ∈ oldnew, p.1 ≠ [])
    (s : Str) (f1 f2 : Nat) (h1 : s.length ≤ f1) (h2 : s.length ≤ f2) :
    replacerFrom oldnew f1 s = replacerFrom oldnew f2 s :=
  replacerFrom_fuel_aux hkeys s.length s f1 f2 (Nat.le_refl _) h1 h2

theorem ReplacerReplace_nil (oldnew : List (Str × Str)) : ReplacerReplace oldnew [] = [] := by
  simp [ReplacerReplace, replacerFrom]

/-- Where a pair matches, its new string is written as it is and the scan resumes after
the old string. -/
theorem ReplacerReplace_match {oldnew : List (Str × Str)} (hkeys : ∀ p ∈ oldnew, p.1 ≠ [])
    {s : Str} {p : Str × Str} (h : replacerLookup oldnew s = some p) :
    ReplacerReplace oldnew s = p.2 ++ ReplacerReplace oldnew (s.drop p.1.length) := by
  obtain ⟨hp, hpre⟩ := replacerLookup_some h
  have hlt := prefix_length_pos (hkeys p hp) hpre
  unfold ReplacerReplace
  obtain ⟨n, hn⟩ : ∃ n, s.length = n + 1 := ⟨s.length - 1, by omega⟩
  rw [hn]
  simp only [replacerFrom, h]
  rw [replacerFrom_fuel hkeys _ n _ (by omega) (Nat.le_refl _)]

/-- Where no pair matches, the byte is copied and the scan moves on by one. -/
theorem ReplacerReplace_cons {oldnew : List (Str × Str)} {c : Nat} {t : Str} (h : replacerLookup oldnew (c :: t) = none) :
    ReplacerReplace oldnew (c :: t) = c :: ReplacerReplace oldnew t := by
  unfold ReplacerReplace
  simp only [List.length_cons, replacerFrom, h]

/-! ## The template renderer -/

theorem formatReplacer_keys (e : Envelope) (env : MimeEnvelope) :
    ∀ p ∈ formatReplacer e env, p.1 ≠ [] := by
  intro p hp
  simp only [formatReplacer, List.mem_cons, List.mem_singleton, List.not_mem_nil,
    or_false] at hp
  rcases hp with rfl | rfl | rfl | rfl | rfl <;> (dsimp only; decide)

theorem ascii_keys :
    ascii "\\n" = [92, 110] ∧ ascii "{from}" = [123, 102, 114, 111, 109, 125] ∧
      ascii "{to}" = [123, 116, 111, 125] ∧
      ascii "{subject}" = [123, 115, 117, 98, 106, 101, 99, 116, 125] ∧
      ascii "{body}" = [123, 98, 111, 100, 121, 125] := by
  decide

theorem formatReplacer_lookup (e : Envelope) (env : MimeEnvelope) (rest : Str) :
    replacerLookup (formatReplacer e env) (ascii "\\n" ++ rest) =
        some (ascii "\\n", ascii "\n") ∧
      replacerLookup (formatReplacer e env) (ascii "{from}" ++ rest) =
        some (ascii "{from}", e.MailFrom.String) ∧
      replacerLookup (formatReplacer e env) (ascii "{to}" ++ rest) =
        some (ascii "{to}", MapAddresses e.RcptTo) ∧
      replacerLookup (formatReplacer e env) (ascii "{subject}" ++ rest) =
        some (ascii "{subject}", env.GetHeader (ascii "subject")) ∧
      replacerLookup (formatReplacer e env) (ascii "{body}" ++ rest) =
        some (ascii "{body}", if env.Text = [] then e.Data else env.Text) := by
  obtain ⟨k1, k2, k3, k4, k5⟩ := ascii_keys
  simp [replacerLookup, formatReplacer, k1, k2, k3, k4, k5, List.find?, List.isPrefixOf]

theorem formatReplacer_lookup_none (e : Envelope) (env : MimeEnvelope) (s : Str)
    (h : ∀ key ∈ [ascii "\\n", ascii "{from}", ascii "{to}", ascii "{subject}",
      ascii "{body}"], ¬ key <+: s) :
    replacerLookup (formatReplacer e env) s = none := by
  cases hl : replacerLookup (formatReplacer e env) s with
  | none => rfl
  | some p =>
    exfalso
    obtain ⟨hp, hpre⟩ := replacerLookup_some hl
    simp only [formatReplacer, List.mem_cons, List.mem_singleton, List.not_mem_nil,
      or_false] at hp
    rcases hp with rfl | rfl | rfl | rfl | rfl
    · exact h _ (by simp) hpre
    · exact h _ (by simp) hpre
    · exact h _ (by simp) hpre
    · exact h _ (by simp) hpre
    · exact h _ (by simp) hpre

/-- C9: for an envelope whose message parses, `FormatEmail` renders both templates with
one function `render`, a single left-to-right pass: at a position where the template
reads backslash, `n`, or `{from}`, `{to}`, `{subject}`, `{body}`, the line feed, the
sender, the recipients joined with `, `, the subject header or the body text (the parsed
plain text, or the raw data when that is empty) is written as it is, without being
scanned, and the pass resumes right after the placeholder; at any other position the
byte is copied and the pass moves on by one; the empty template renders to the empty
text.  Hence the template `{subject}` renders to exactly the subject value and the
template `{body}` to exactly the body text, whatever they contain. -/
theorem FormatEmail_single_pass (e : Envelope) (env : MimeEnvelope)
    (hparse : e.parsed = .ok env) :
    ∃ render : Str → Str,
      (∀ titleTemplate messageTemplate : Str,
        FormatEmail e titleTemplate messageTemplate =
          (render titleTemplate, render messageTemplate)) ∧
      render [] = [] ∧
      (∀ rest : Str, render (ascii "\\n" ++ rest) = ascii "\n" ++ render rest) ∧
      (∀ rest : Str, render (ascii "{from}" ++ rest) = e.MailFrom.String ++ render rest) ∧
      (∀ rest : Str, render (ascii "{to}" ++ rest) =
        Join (e.RcptTo.map Address.String) (ascii ", ") ++ render rest) ∧
      (∀ rest : Str, render (ascii "{subject}" ++ rest) =
        env.GetHeader (ascii "subject") ++ render rest) ∧
      (∀ rest : Str, render (ascii "{body}" ++ rest) =
        (if env.Text = [] then e.Data else env.Text) ++ render rest) ∧
      (∀ (c : Nat) (rest : Str),
        (∀ key ∈ [ascii "\\n", ascii "{from}", ascii "{to}", ascii "{subject}",
          ascii "{body}"], ¬ key <+: c :: rest) →
        render (c :: rest) = c :: render rest) ∧
      render (ascii "{subject}") = env.GetHeader (ascii "subject") ∧
      render (ascii "{body}") = (if env.Text = [] then e.Data else env.Text) := by
  have hkeys := formatReplacer_keys e env
  have hstep : ∀ (key val rest : Str),
      replacerLookup (formatReplacer e env) (key ++ rest) = some (key, val) →
      ReplacerReplace (formatReplacer e env) (key ++ rest) =
        val ++ ReplacerReplace (formatReplacer e env) rest := by
    intro key val rest hl
    rw [ReplacerReplace_match hkeys hl]
    simp
  refine ⟨ReplacerReplace (formatReplacer e env), ?_, ReplacerReplace_nil _, ?_, ?_, ?_, ?_,
    ?_, ?_, ?_, ?_⟩
  · intro titleTemplate messageTemplate
    simp [FormatEmail, hparse]
  · intro rest; exact hstep _ _ rest (formatReplacer_lookup e env rest).1
  · intro rest; exact hstep _ _ rest (formatReplacer_lookup e env rest).2.1
  · intro rest; exact hstep _ _ rest (formatReplacer_lookup e env rest).2.2.1
  · intro rest; exact hstep _ _ rest (formatReplacer_lookup e env rest).2.2.2.1
  · intro rest; exact hstep _ _ rest (formatReplacer_lookup e env rest).2.2.2.2
  · intro c rest hno
    exact ReplacerReplace_cons (formatReplacer_lookup_none e env _ hno)
  · have := hstep _ _ [] (formatReplacer_lookup e env []).2.2.2.1
    rw [List.append_nil] at this
    rw [this, ReplacerReplace_nil, List.append_nil]
  · have := hstep _ _ [] (formatReplacer_lookup e env []).2.2.2.2
    rw [List.append_nil] at this
    rw [this, ReplacerReplace_nil, List.append_nil]

/-- The default templates `{subject}` and `{body}`: subject `Hi` and body `There` give
the title `Hi` and the message `There`; a subject that reads `{body}\n` is the title as
it is. -/
theorem FormatEmail_single_pass_witness :
    FormatEmail sampleEnvelope (ascii "{subject}") (ascii "{body}") =
        (ascii "Hi", ascii "There") ∧
      FormatEmail (sampleMessage (ascii "{body}\\n") (ascii "There")) (ascii "{subject}")
        (ascii "{body}") = (ascii "{body}\\n", ascii "There") := by
  obtain ⟨r1, h1, _, _, _, _, _, _, _, hs1, hb1⟩ :=
    FormatEmail_single_pass sampleEnvelope (sampleMime (ascii "Hi") (ascii "There")) rfl
  obtain ⟨r2, h2, _, _, _, _, _, _, _, hs2, hb2⟩ :=
    FormatEmail_single_pass (sampleMessage (ascii "{body}\\n") (ascii "There"))
      (sampleMime (ascii "{body}\\n") (ascii "There")) rfl
  rw [h1, hs1, hb1, h2, hs2, hb2]
  exact ⟨by decide, by decide⟩

/-- C10: for an envelope whose MIME parse fails with the error text `err`, and for every
pair of templates, `FormatEmail` returns the fixed title
`smtp-gotify: Could not parse email` and the message made of the stringified envelope,
the fixed line `Error occurred during email parsing: ` after a blank line, and `err`.
The stage does not reject such a message by itself: on the persist event, when every
POST of this degraded content is answered with 200, the stage hands the envelope to the
next stage and returns what it returns. -/
theorem FormatEmail_parse_failure (e : Envelope) (err : Str)
    (hparse : e.parsed = .error err) :
    (∀ titleTemplate messageTemplate : Str,
        FormatEmail e titleTemplate messageTemplate =
          (ascii "smtp-gotify: Could not parse email",
            e.text ++ ascii "\n\nError occurred during email parsing: " ++ err)) ∧
      (∀ (cfg : GofityConfig) (w : World) (h : List Call),
        AllAccepted w h ((Split cfg.gotifyAPIToken (ascii ",")).map
          (postRequest cfg (ascii "smtp-gotify: Could not parse email")
            (e.text ++ ascii "\n\nError occurred during email parsing: " ++ err))) →
        GotifyBotProcessorFactory cfg w h e TaskSaveMail =
          (w.Process
              (h ++ posts ((Split cfg.gotifyAPIToken (ascii ",")).map
                (postRequest cfg (ascii "smtp-gotify: Could not parse email")
                  (e.text ++ ascii "\n\nError occurred during email parsing: " ++ err))))
              e TaskSaveMail,
            h ++ posts ((Split cfg.gotifyAPIToken (ascii ",")).map
                (postRequest cfg (ascii "smtp-gotify: Could not parse email")
                  (e.text ++ ascii "\n\nError occurred during email parsing: " ++ err))) ++
              [Call.process e TaskSaveMail])) := by
  have hfmt : ∀ titleTemplate messageTemplate : Str,
      FormatEmail e titleTemplate messageTemplate =
        (ascii "smtp-gotify: Could not parse email",
          e.text ++ ascii "\n\nError occurred during email parsing: " ++ err) := by
    intro titleTemplate messageTemplate
    simp [FormatEmail, hparse]
  refine ⟨hfmt, ?_⟩
  intro cfg w h hall
  have hsend : SendEmailToGotify w h e cfg =
      (none, h ++ posts ((Split cfg.gotifyAPIToken (ascii ",")).map
        (postRequest cfg (ascii "smtp-gotify: Could not parse email")
          (e.text ++ ascii "\n\nError occurred during email parsing: " ++ err)))) := by
    unfold SendEmailToGotify
    rw [hfmt]
    have := sendLoop_append w cfg (ascii "smtp-gotify: Could not parse email")
      (e.text ++ ascii "\n\nError occurred during email parsing: " ++ err)
      (Split cfg.gotifyAPIToken (ascii ",")) [] h hall
    rw [List.append_nil] at this
    rw [this]
    simp [sendLoop]
  simp [GotifyBotProcessorFactory, hsend]

/-- A message the parser refuses, with templates that ask for the subject and the body:
the fixed title and the degraded message are rendered, and with the one POST answered
with 200 the stage returns the next stage's result. -/
theorem FormatEmail_parse_failure_witness :
    FormatEmail brokenEnvelope (ascii "{subject}") (ascii "{body}") =
        (ascii "smtp-gotify: Could not parse email",
          ascii "garbage\n\nError occurred during email parsing: malformed MIME header") ∧
      (GotifyBotProcessorFactory (sampleConfig (ascii "tok1")) (sampleWorld 5 (.error [])) []
        brokenEnvelope TaskSaveMail).1 = (⟨ascii "250 OK"⟩, none) := by
  have h := FormatEmail_parse_failure brokenEnvelope (ascii "malformed MIME header") rfl
  refine ⟨(h.1 _ _).trans (by decide), ?_⟩
  rw [h.2 (sampleConfig (ascii "tok1")) (sampleWorld 5 (.error [])) [] ⟨by decide, trivial⟩]
  rfl

/-! ## Adequacy of the embedded library operations -/

theorem decimalDigits_acc :
    ∀ (fuel n : Nat) (acc : Str),
      decimalDigits fuel n acc = decimalDigits fuel n [] ++ acc := by
  intro fuel
  induction fuel with
  | zero => intro n acc; simp [decimalDigits]
  | succ k ih =>
    intro n acc
    by_cases hn : n < 10
    · simp [decimalDigits, hn]
    · simp only [decimalDigits, hn, if_false]
      rw [ih _ ((48 + n % 10) :: acc), ih _ [48 + n % 10]]
      simp

theorem decimalValue_append_digit (s : Str) (d : Nat) :
    decimalValue (s ++ [48 + d]) = 10 * decimalValue s + d := by
  simp [decimalValue, List.foldl_append]

/-- The digits written for `n` read back as `n`: the fuel `n + 1` is enough. -/
theorem decimalValue_decimalDigits :
    ∀ (fuel n : Nat), n < fuel → decimalValue (decimalDigits fuel n []) = n := by
  intro fuel
  induction fuel with
  | zero => intro n h; omega
  | succ k ih =>
    intro n h
    by_cases hn : n < 10
    · simp [decimalDigits, hn, decimalValue]
    · simp only [decimalDigits, hn, if_false]
      rw [decimalDigits_acc, decimalValue_append_digit, ih (n / 10) (by omega)]
      omega

/-- The `%d` form of a non-negative status reads back as the status. -/
theorem decimalValue_formatInt (n : Nat) : decimalValue (formatInt (n : Int)) = n := by
  have h : ¬ ((n : Int) < 0) := by omega
  simp only [formatInt, h, if_false, Int.natAbs_ofNat]
  exact decimalValue_decimalDigits (n + 1) n (Nat.lt_succ_self n)

theorem Index_some_spec {sub : Str} :
    ∀ (s : Str) (j : Nat), Index s sub = some j →
      s.take j ++ sub ++ s.drop (j + sub.length) = s := by
  intro s
  induction s with
  | nil =>
    intro j h
    by_cases hs : sub = []
    · subst hs; simp [Index] at h; simp
    · rw [Index_nil hs] at h; cases h
  | cons c t ih =>
    intro j h
    by_cases hp : sub <+: c :: t
    · rw [Index_at_match hp] at h
      cases h
      simpa using List.prefix_iff_eq_append.mp hp
    · rw [Index_cons_of_no_match hp] at h
      cases hI : Index t sub with
      | none => rw [hI] at h; cases h
      | some i =>
        rw [hI] at h
        simp only [Option.map_some', Option.some.injEq] at h
        subst h
        have := ih i hI
        simp only [List.take_succ_cons, List.cons_append, Nat.add_right_comm i 1,
          List.drop_succ_cons]
        rw [this]

theorem Index_take {sub : Str} (hsub : sub ≠ []) :
    ∀ (s : Str) (j : Nat), Index s sub = some j → Index (s.take j) sub = none := by
  intro s
  induction s with
  | nil => intro j _; simpa using Index_nil hsub
  | cons c t ih =>
    intro j h
    by_cases hp : sub <+: c :: t
    · rw [Index_at_match hp] at h
      cases h
      simpa using Index_nil hsub
    · rw [Index_cons_of_no_match hp] at h
      cases hI : Index t sub with
      | none => rw [hI] at h; cases h
      | some i =>
        rw [hI] at h
        simp only [Option.map_some', Option.some.injEq] at h
        subst h
        have hp' : ¬ sub <+: c :: t.take i := fun hq =>
          hp (hq.trans ((List.prefix_cons_inj c).mpr (List.take_prefix i t)))
        rw [List.take_succ_cons, Index_cons_of_no_match hp', ih i hI]
        rfl

theorem Join_cons_of_ne_nil (a : Str) {ps : List Str} (h : ps ≠ []) (sep : Str) :
    Join (a :: ps) sep = a ++ sep ++ Join ps sep := by
  cases ps with
  | nil => exact absurd rfl h
  | cons q rest => rfl

theorem splitFrom_ne_nil (sep : Str) (fuel : Nat) (s : Str) : splitFrom sep fuel s ≠ [] := by
  cases fuel with
  | zero => simp [splitFrom]
  | succ n =>
    simp only [splitFrom]
    cases Index s sep <;> simp

/-- Joining the pieces of a split with the separator gives the text back, whatever the
fuel. -/
theorem Join_splitFrom (sep : Str) :
    ∀ (fuel : Nat) (s : Str), Join (splitFrom sep fuel s) sep = s := by
  intro fuel
  induction fuel with
  | zero => intro s; rfl
  | succ n ih =>
    intro s
    simp only [splitFrom]
    cases hI : Index s sep with
    | none => rfl
    | some j =>
      simp only []
      rw [Join_cons_of_ne_nil _ (splitFrom_ne_nil sep n _), ih]
      exact Index_some_spec s j hI

/-- With fuel for the length of the text the loop of the split runs to the end: no
piece holds the separator. -/
theorem splitFrom_pieces (sep : Str) (hsep : sep ≠ []) :
    ∀ (fuel : Nat) (s : Str), s.length ≤ fuel →
      ∀ p ∈ splitFrom sep fuel s, Index p sep = none := by
  intro fuel
  induction fuel with
  | zero =>
    intro s hs p hp
    have : s = [] := List.length_eq_zero.mp (Nat.le_zero.mp hs)
    subst this
    simp only [splitFrom, List.mem_singleton] at hp
    rw [hp]; exact Index_nil hsep
  | succ n ih =>
    intro s hs p hp
    simp only [splitFrom] at hp
    cases hI : Index s sep with
    | none =>
      rw [hI] at hp
      simp only [List.mem_singleton] at hp
      rw [hp]; exact hI
    | some j =>
      rw [hI] at hp
      simp only [List.mem_cons] at hp
      have hspec := Index_some_spec s j hI
      have hpos : 0 < sep.length := List.length_pos.mpr hsep
      have hlen : j + sep.length ≤ s.length := by
        have := congrArg List.length hspec
        simp only [List.length_append, List.length_take, List.length_drop] at this
        omega
      rcases hp with hp | hp
      · rw [hp]; exact Index_take hsep s j hI
      · exact ih _ (by simp only [List.length_drop]; omega) p hp

/-- Joining the tokens of the split with the separator gives the configured text. -/
theorem Join_Split (s sep : Str) : Join (Split s sep) sep = s :=
  Join_splitFrom sep s.length s

/-- No token of the split holds the separator. -/
theorem Split_pieces (s sep : Str) (hsep : sep ≠ []) :
    ∀ p ∈ Split s sep, Index p sep = none :=
  splitFrom_pieces sep hsep s.length s (Nat.le_refl _)

theorem runeSize_pos (s0 : Nat) : 1 ≤ runeSize s0 := by
  unfold runeSize
  split_ifs <;> omega

theorem runeWidth_pos (c : Nat) (t : Str) : 1 ≤ runeWidth (c :: t) := by
  simp only [runeWidth]
  split_ifs
  · exact runeSize_pos c
  · exact Nat.le_refl 1

theorem replaceRunes_fuel_aux (new : Str) :
    ∀ (k : Nat) (s : Str) (f1 f2 : Nat), s.length ≤ k → s.length ≤ f1 → s.length ≤ f2 →
      replaceRunes new f1 s = replaceRunes new f2 s := by
  intro k
  induction k with
  | zero =>
    intro s f1 f2 hk _ _
    have : s = [] := List.length_eq_zero.mp (Nat.le_zero.mp hk)
    subst this
    cases f1 <;> cases f2 <;> simp [replaceRunes]
  | succ k ih =>
    intro s f1 f2 hk h1 h2
    cases s with
    | nil => cases f1 <;> cases f2 <;> simp [replaceRunes]
    | cons c t =>
      simp only [List.length_cons] at hk h1 h2
      obtain ⟨n, rfl⟩ : ∃ n, f1 = n + 1 := ⟨f1 - 1, by omega⟩
      obtain ⟨m, rfl⟩ : ∃ m, f2 = m + 1 := ⟨f2 - 1, by omega⟩
      have hw := runeWidth_pos c t
      have hd : ((c :: t).drop (runeWidth (c :: t))).length ≤ t.length := by
        simp only [List.length_drop, List.length_cons]; omega
      simp only [replaceRunes, List.cons_ne_nil, if_false]
      rw [ih _ n m (by omega) (by omega) (by omega)]

/-- Fuel beyond the length of the text does not change the replacement of the empty
text. -/
theorem replaceRunes_fuel (new s : Str) (f1 f2 : Nat) (h1 : s.length ≤ f1)
    (h2 : s.length ≤ f2) : replaceRunes new f1 s = replaceRunes new f2 s :=
  replaceRunes_fuel_aux new s.length s f1 f2 (Nat.le_refl _) h1 h2

end SmtpGotify
